import Mathlib

/-!
Verification development for the Rat25S single-pass front end (`main.py`).

The Python source is shallowly embedded below:
* pure helpers (`lexer`, `classify`, `cmp_map`, …) become Lean functions on
  `List Char` / `String`;
* the recursive-descent parser, which mutates four process-wide globals
  (`tokens`/`current_token_index`, `symbol_table`, `Memory_Address`,
  `instructions`/`instr_ptr`), becomes explicit state passing over `PState`;
* every `raise` site of the source becomes an `Except` error with its own
  constructor (`PError`), including Python's raw `KeyError` on
  `symbol_table[name]` / `cmp_map[relop]`, the `AttributeError` obtained when
  the source dereferences `self.current_token` while it is `None`, the
  `ValueError` of `int(...)`, and the `IndexError` raised when more than
  `MAX_INSTR` instructions are written;
* the mutually recursive parse procedures become one step function `run`
  over a tag type `PTag` (one tag per source procedure / source `while` loop),
  structurally recursive on a fuel argument; fuel measures call depth only,
  and exhaustion is the distinguished error `PError.outOfFuel`.

Instructions are modelled structurally as (opcode, operands): the source
stores formatted strings (`emit`, and the backpatch in `while_statement`
writes `f"{patch_slot} JMP0 {exit_target}"`), whose opcode/operand content is
exactly what `Instr` records; padding and comment text are presentation only.
-/

/-- Token of the lexer (`class Token`, main.py:70-76).  The `line` field of the
source is always `None` for tokens produced by `lexer` and is omitted. -/
structure Token where
  token_type : String
  lexeme : String
deriving DecidableEq, Repr

/-- Keyword set (main.py:79-83). -/
def KEYWORDS : List String :=
  ["while", "endwhile", "if", "endif", "else",
   "integer", "boolean", "true", "false",
   "return", "print", "scan"]

/-- Operator set (main.py:84). -/
def OPERATORS : List String :=
  ["=", "+", "-", "*", "/", "<", "<=", ">", ">=", "==", "!=", "=>"]

/-- Separator set (main.py:85); note that it lists `[` and `]` even though the
token pattern (main.py:86) has no alternative that can match them. -/
def SEPARATORS : List String :=
  ["(", ")", "\x7b", "\x7d", ";", ",", "[", "]", "$$"]

/-- Characters matched by the regex class `[a-zA-Z0-9_]`. -/
def identChar (c : Char) : Bool := c.isAlpha || c.isDigit || c == '_'

/-- Characters of the regex class `[=+\-*/<>!]`. -/
def opChar (c : Char) : Bool := ['=', '+', '-', '*', '/', '<', '>', '!'].contains c

/-- Characters of the regex class `[();,{}]` — the single-character separator
alternative of `token_pattern` (main.py:86).  `[` and `]` are absent. -/
def sepChar (c : Char) : Bool := ['(', ')', ';', ',', '{', '}'].contains c

/-- Full match against `[a-zA-Z][a-zA-Z0-9_]*` (main.py:100). -/
def isIdentLex (w : String) : Bool :=
  match w.toList with
  | c :: tl => c.isAlpha && tl.all identChar
  | [] => false

/-- Full match against `[0-9]+` (main.py:102). -/
def isIntLex (w : String) : Bool :=
  !w.toList.isEmpty && w.toList.all Char.isDigit

/-- Full match against `[0-9]+\.[0-9]+` (main.py:104). -/
def isRealLex (w : String) : Bool :=
  match w.toList.span Char.isDigit with
  | (ds, '.' :: rest) => !ds.isEmpty && !rest.isEmpty && rest.all Char.isDigit
  | _ => false

/-- Classification of one matched lexeme (main.py:94-107): keyword, else
operator, else separator, else identifier / integer / real by pattern,
else unknown. -/
def classify (w : String) : Token :=
  if KEYWORDS.contains w then ⟨"keyword", w⟩
  else if OPERATORS.contains w then ⟨"operator", w⟩
  else if SEPARATORS.contains w then ⟨"separator", w⟩
  else if isIdentLex w then ⟨"identifier", w⟩
  else if isIntLex w then ⟨"integer", w⟩
  else if isRealLex w then ⟨"real", w⟩
  else ⟨"unknown", w⟩

/-- One attempt of the single-character-led alternatives of `token_pattern`
(main.py:86) at a position whose first character is `c` (with `rest` after
it), in regex order: identifier `[a-zA-Z][a-zA-Z0-9_]*`, real
`[0-9]+\.[0-9]+` (falling back to integer `[0-9]+` when no fractional part
follows), operator `[=+\-*/<>!]=?`, separator `[();,{}]`; each alternative
matches greedily. -/
def matchOne (c : Char) (rest : List Char) : Option (List Char × List Char) :=
  if c.isAlpha then
    some (c :: rest.takeWhile identChar, rest.dropWhile identChar)
  else if c.isDigit then
    let ds := rest.takeWhile Char.isDigit
    let r1 := rest.dropWhile Char.isDigit
    if r1.head? == some '.' && !(r1.tail.takeWhile Char.isDigit).isEmpty then
      some (c :: ds ++ '.' :: r1.tail.takeWhile Char.isDigit,
            r1.tail.dropWhile Char.isDigit)
    else some (c :: ds, r1)
  else if opChar c then
    if rest.head? == some '=' then some ([c, '='], rest.tail)
    else some ([c], rest)
  else if sepChar c then some ([c], rest)
  else none

/-- One attempt of `re.findall(token_pattern, ·)` at the current position
(main.py:86): the alternatives `\$\$`, `=>`, then the single-character-led
alternatives of `matchOne` are tried in this order; the first that matches
wins.  Returns the matched lexeme and the rest, or `none` when no
alternative matches here (the scanner then skips one character). -/
def matchAlt (cs : List Char) : Option (List Char × List Char) :=
  match cs with
  | [] => none
  | c :: rest =>
    if c == '$' && rest.head? == some '$' then some (['$', '$'], rest.tail)
    else if c == '=' && rest.head? == some '>' then some (['=', '>'], rest.tail)
    else matchOne c rest

/-- Left-to-right scan of `re.findall` over comment-stripped text
(main.py:93): emit a classified token per match, skip one character where no
alternative matches.  Fuel bounds the number of scan steps; every step
consumes at least one character, so `cs.length` fuel always suffices. -/
def lexScan : Nat → List Char → List Token
  | 0, _ => []
  | _, [] => []
  | fuel + 1, c :: cs =>
    match matchAlt (c :: cs) with
    | some (lex, rest) => classify (String.mk lex) :: lexScan fuel rest
    | none => lexScan fuel cs

/-- Drop characters up to and including the first occurrence of `*]`
(the non-greedy tail `.*?\*\]` of `COMMENT_RE`, main.py:87). -/
def findClose : List Char → Option (List Char)
  | '*' :: ']' :: rest => some rest
  | _ :: rest => findClose rest
  | [] => none

/-- The substitution `re.sub(COMMENT_RE, "", ·)` (main.py:91): each `[*`,
together with everything through the earliest following `*]`, is removed;
a `[*` with no later `*]` matches nothing and is kept verbatim (and then no
later comment can open either).  Fuel bounds scan steps as in `lexScan`. -/
def stripC : Nat → List Char → List Char
  | 0, cs => cs
  | _ + 1, [] => []
  | fuel + 1, '[' :: '*' :: rest =>
    (match findClose rest with
     | some rest' => stripC fuel rest'
     | none => '[' :: '*' :: rest)
  | fuel + 1, c :: rest => c :: stripC fuel rest

/-- The lexer (main.py:90-108): strip comments, then scan for tokens. -/
def lexer (s : String) : List Token :=
  let cs0 := s.toList
  let cs := stripC (cs0.length + 1) cs0
  lexScan cs.length cs

/-- Stack-machine instruction: opcode and operands, as written by `emit`
(main.py:13-21) and by the backpatch of `while_statement` (main.py:304).
`CMP s` carries the opcode string chosen from `cmp_map` (main.py:334-339). -/
inductive Instr where
  | PUSHI (v : Nat)
  | PUSHM (a : Nat)
  | STO (x : String)
  | SIN
  | POPM (a : Nat)
  | SOUT
  | LABEL
  | JMP0 (t : Nat)
  | JMP (t : Nat)
  | A
  | S
  | M
  | D
  | CMP (s : String)
  | MUL
  | DIV
  | NEG
deriving DecidableEq, Repr

/-- Every way a compilation run can abort.  Each constructor corresponds to
one `raise` site of the source (or to a raw Python exception):
`expected` is `Parser.error` from `match` (main.py:124-137); `useBeforeDecl`
and `duplicateDecl` the two semantic errors (main.py:201/353 and main.py:53);
`keyError` a Python `KeyError` on `symbol_table[...]` (main.py:265) or
`cmp_map[relop]` (main.py:339); `noneAttr` a Python `AttributeError` from
dereferencing `self.current_token` while it is `None`; `valueError` Python's
`int(...)` failure (main.py:345); `overflow` the `IndexError` when writing
past `MAX_INSTR` slots (main.py:20); `outOfFuel` is the fuel artifact of the
embedding. -/
inductive PError where
  | expected (ty : String) (lx : Option String) (found : Option Token) (idx : Nat)
  | useBeforeDecl (name : String)
  | duplicateDecl (name : String)
  | expectedIdentifier (found : Option Token)
  | expectedQualifier
  | unexpectedKeyword (lx : String)
  | unexpectedToken (found : Option Token)
  | expectedExpr (found : Option Token)
  | unexpectedEnd
  | expectedPrim
  | keyError (key : String)
  | noneAttr
  | valueError
  | overflow
  | outOfFuel
deriving DecidableEq, Repr

/-- The process-wide mutable state of one compilation run: the token list and
cursor of `Parser` (main.py:112-115), the insertion-ordered `symbol_table`
(name, address, type) (main.py:45), `Memory_Address` (main.py:42), and the
written prefix of `instructions` (main.py:10-11; `instr_ptr` is always
`instrs.length + 1`). -/
structure PState where
  tokens : List Token
  idx : Nat
  symbols : List (String × Nat × String)
  memAddr : Nat
  instrs : List Instr
deriving DecidableEq, Repr

/-- `self.current_token` (main.py:115, 117-122). -/
def currentTok (st : PState) : Option Token := st.tokens[st.idx]?

/-- `MAX_INSTR` (main.py:9). -/
def MAX_INSTR : Nat := 1000

/-- `emit` (main.py:13-21): write at `instr_ptr`, advance; writing past the
fixed capacity raises (Python `IndexError`). -/
def emit (i : Instr) (st : PState) : Except PError PState :=
  if st.instrs.length < MAX_INSTR then
    .ok { st with instrs := st.instrs ++ [i] }
  else .error .overflow

/-- `is_declared` (main.py:47-48). -/
def is_declared (st : PState) (lexeme : String) : Bool :=
  st.symbols.any (fun e => e.1 == lexeme)

/-- Address of a declared identifier: `symbol_table[name][0]`. -/
def lookupAddr (st : PState) (name : String) : Option Nat :=
  (st.symbols.find? (fun e => e.1 == name)).map (fun e => e.2.1)

/-- `insert_identifier` (main.py:50-55).  The `chk` flag is explained at
`run`: with `chk = true` this is exactly the source (duplicate declaration
raises); with `chk = false` the declaration check is disabled. -/
def insert_identifier (chk : Bool) (lexeme ty : String) (st : PState) :
    Except PError PState :=
  if chk && is_declared st lexeme then .error (.duplicateDecl lexeme)
  else .ok { st with
    symbols := st.symbols ++ [(lexeme, st.memAddr, ty)],
    memAddr := st.memAddr + 1 }

/-- `Parser.match` (main.py:124-137): compare type (and lexeme when given)
with the current token; on success advance, otherwise raise. -/
def matchTok (ty : String) (lx : Option String) (st : PState) :
    Except PError PState :=
  match currentTok st with
  | some t =>
    if t.token_type == ty && (lx.isNone || lx == some t.lexeme) then
      .ok { st with idx := st.idx + 1 }
    else .error (.expected ty lx (some t) st.idx)
  | none => .error (.expected ty lx none st.idx)

/-- `cmp_map` (main.py:334-338). -/
def cmpMap (r : String) : Option String :=
  if r == "<" then some "CMP_LT"
  else if r == ">" then some "CMP_GT"
  else if r == "==" then some "CMP_EQ"
  else if r == "!=" then some "CMP_NE"
  else if r == "<=" then some "CMP_LE"
  else if r == ">=" then some "CMP_GE"
  else none

/-- Arithmetic opcode chosen by the operator chain of `expression`
(main.py:375-382). -/
def arithInstr (op : String) : Instr :=
  if op == "+" then .A
  else if op == "-" then .S
  else if op == "*" then .M
  else .D

/-- Numeric value of a decimal-digit lexeme.  Models Python's
`int(lexeme)` (main.py:345) for the lexemes the lexer can attach to an
`integer` token (a nonempty digit string); any other string is modelled as
the `ValueError` that `int` would raise on the lexer's non-numeric output. -/
def decNat (s : String) : Option Nat :=
  if !s.toList.isEmpty && s.toList.all Char.isDigit then
    some (s.toList.foldl (fun a c => a * 10 + (c.toNat - '0'.toNat)) 0)
  else none

/-- One tag per procedure of `Parser` (main.py:111-427); the `…Loop` tags and
`skipDollars` are the source's `while` loops, and `exprOps` is the binary
operator loop of `expression` (main.py:369-382).  `ids` carries the
`var_type` argument, `stmtList` the `terminators` argument. -/
inductive PTag where
  | rat25s
  | skipDollars
  | optDeclList
  | declList
  | declLoop
  | decl
  | qualifier
  | ids (vt : Option String)
  | stmtList (terms : List String)
  | stmt
  | compound
  | assign
  | scanStmt
  | printStmt
  | whileStmt
  | ifStmt
  | returnStmt
  | condition
  | expression
  | exprOps
  | term
  | termLoop
  | factor
  | primary
deriving DecidableEq, Repr

/-- The recursive-descent parser (main.py:111-427), one case per `PTag` tag.

The Boolean `chk` selects between two variants sharing one grammar engine:
`chk = true` is the faithful embedding of the source — every `chk`-guarded
test below is exactly a declaration check of the source (main.py:52,
main.py:200-201, main.py:265, main.py:352-354).  `chk = false` disables
exactly those checks and is the check-free grammar recognizer used to state
the spec's notion of a grammatically valid program ("for all valid programs
… parsing succeeds iff every identifier is declared before use and no
identifier is declared twice", spec §8); in that mode an absent symbol-table
entry reads as address 0, which no control-flow decision inspects.

Fuel decreases at every nested call, so it bounds call depth. -/
def run (chk : Bool) : Nat → PTag → PState → Except PError PState
  | 0, _, _ => .error .outOfFuel
  | fuel + 1, f, st =>
    match f with
    | .rat25s => do
      let st ← matchTok "separator" (some "$$") st
      let st ← run chk fuel .skipDollars st
      let st ← run chk fuel .optDeclList st
      let st ← (match currentTok st with
        | some t =>
          if t.token_type == "separator" && t.lexeme == "$$" then
            matchTok "separator" (some "$$") st
          else .ok st
        | none => .ok st)
      let st ← run chk fuel (.stmtList ["$$"]) st
      matchTok "separator" (some "$$") st
    | .skipDollars =>
      (match currentTok st with
      | some t =>
        if t.token_type == "separator" && t.lexeme == "$$" then do
          let st ← matchTok "separator" (some "$$") st
          run chk fuel .skipDollars st
        else .ok st
      | none => .ok st)
    | .optDeclList =>
      (match currentTok st with
      | some t =>
        if t.token_type == "keyword" && ["integer", "boolean"].contains t.lexeme then
          run chk fuel .declList st
        else .ok st
      | none => .ok st)
    | .declList => do
      let st ← run chk fuel .decl st
      let st ← matchTok "separator" (some ";") st
      run chk fuel .declLoop st
    | .declLoop =>
      (match currentTok st with
      | some t =>
        if t.token_type == "keyword" && ["integer", "boolean", "real"].contains t.lexeme then do
          let st ← run chk fuel .decl st
          let st ← matchTok "separator" (some ";") st
          run chk fuel .declLoop st
        else .ok st
      | none => .ok st)
    | .decl =>
      (match currentTok st with
      | none => .error .noneAttr
      | some t => do
        let st ← run chk fuel .qualifier st
        run chk fuel (.ids (some t.lexeme)) st)
    | .qualifier =>
      (match currentTok st with
      | none => .error .noneAttr
      | some t =>
        if ["integer", "boolean"].contains t.lexeme then
          matchTok "keyword" none st
        else .error .expectedQualifier)
    | .ids vt =>
      (match currentTok st with
      | some t =>
        if t.token_type == "identifier" then do
          let st ← (match vt with
            | some ty => insert_identifier chk t.lexeme ty st
            | none =>
              if chk && !is_declared st t.lexeme then
                .error (.useBeforeDecl t.lexeme)
              else .ok st)
          let st ← matchTok "identifier" none st
          (match currentTok st with
          | some u =>
            if u.token_type == "separator" && u.lexeme == "," then do
              let st ← matchTok "separator" (some ",") st
              run chk fuel (.ids vt) st
            else .ok st
          | none => .ok st)
        else .error (.expectedIdentifier (currentTok st))
      | none => .error (.expectedIdentifier none))
    | .stmtList terms =>
      (match currentTok st with
      | some t =>
        if terms.contains t.lexeme then .ok st
        else do
          let st ← run chk fuel .stmt st
          run chk fuel (.stmtList terms) st
      | none => .ok st)
    | .stmt =>
      (match currentTok st with
      | none => .error .noneAttr
      | some t =>
        if t.token_type == "separator" && t.lexeme == "\x7b" then
          run chk fuel .compound st
        else if t.token_type == "keyword" then
          if t.lexeme == "if" then run chk fuel .ifStmt st
          else if t.lexeme == "while" then run chk fuel .whileStmt st
          else if t.lexeme == "return" then run chk fuel .returnStmt st
          else if t.lexeme == "print" then run chk fuel .printStmt st
          else if t.lexeme == "scan" then run chk fuel .scanStmt st
          else .error (.unexpectedKeyword t.lexeme)
        else if t.token_type == "identifier" then run chk fuel .assign st
        else .error (.unexpectedToken (some t)))
    | .compound => do
      let st ← matchTok "separator" (some "\x7b") st
      let st ← run chk fuel (.stmtList ["\x7d"]) st
      matchTok "separator" (some "\x7d") st
    | .assign =>
      (match currentTok st with
      | none => .error .noneAttr
      | some t => do
        let st ← matchTok "identifier" none st
        let st ← matchTok "operator" (some "=") st
        let st ← run chk fuel .expression st
        let st ← matchTok "separator" (some ";") st
        emit (.STO t.lexeme) st)
    | .scanStmt => do
      let st ← matchTok "keyword" (some "scan") st
      let st ← matchTok "separator" (some "(") st
      (match currentTok st with
      | none => .error .noneAttr
      | some t => do
        let st ← matchTok "identifier" none st
        let st ← matchTok "separator" (some ")") st
        let st ← matchTok "separator" (some ";") st
        if chk && (lookupAddr st t.lexeme).isNone then
          .error (.keyError t.lexeme)
        else do
          let st ← emit .SIN st
          emit (.POPM ((lookupAddr st t.lexeme).getD 0)) st)
    | .printStmt => do
      let st ← matchTok "keyword" (some "print") st
      let st ← matchTok "separator" (some "(") st
      let st ← run chk fuel .expression st
      let st ← matchTok "separator" (some ")") st
      let st ← matchTok "separator" (some ";") st
      emit .SOUT st
    | .whileStmt => do
      let st ← matchTok "keyword" (some "while") st
      let st ← matchTok "separator" (some "(") st
      let st ← run chk fuel .condition st
      let st ← matchTok "separator" (some ")") st
      let startLabel := st.instrs.length + 1
      let st ← emit .LABEL st
      let patchSlot := st.instrs.length + 1
      let st ← emit (.JMP0 0) st
      let st ← matchTok "separator" (some "\x7b") st
      let st ← run chk fuel (.stmtList ["\x7d"]) st
      let st ← matchTok "separator" (some "\x7d") st
      let st ← emit (.JMP startLabel) st
      let exitTarget := st.instrs.length + 1
      let st := { st with instrs := st.instrs.set (patchSlot - 1) (.JMP0 exitTarget) }
      matchTok "keyword" (some "endwhile") st
    | .ifStmt => do
      let st ← matchTok "keyword" (some "if") st
      let st ← matchTok "separator" (some "(") st
      let st ← run chk fuel .condition st
      let st ← matchTok "separator" (some ")") st
      let st ← run chk fuel .stmt st
      let st ← (match currentTok st with
        | some t =>
          if t.lexeme == "else" then do
            let st ← matchTok "keyword" (some "else") st
            run chk fuel .stmt st
          else .ok st
        | none => .ok st)
      matchTok "keyword" (some "endif") st
    | .returnStmt => do
      let st ← matchTok "keyword" (some "return") st
      let st ← (match currentTok st with
        | some t =>
          if !(t.lexeme == ";") then run chk fuel .expression st
          else .ok st
        | none => .ok st)
      matchTok "separator" (some ";") st
    | .condition => do
      let st ← run chk fuel .expression st
      (match currentTok st with
      | none => .error .noneAttr
      | some t => do
        let st ← matchTok "operator" none st
        let st ← run chk fuel .expression st
        (match cmpMap t.lexeme with
        | some c => emit (.CMP c) st
        | none => .error (.keyError t.lexeme)))
    | .expression => do
      let st ← (match currentTok st with
        | none => .error .noneAttr
        | some t =>
          if t.token_type == "integer" then
            match decNat t.lexeme with
            | none => .error .valueError
            | some v => do
              let st ← matchTok "integer" none st
              emit (.PUSHI v) st
          else if t.token_type == "identifier" then
            if chk && !is_declared st t.lexeme then
              .error (.useBeforeDecl t.lexeme)
            else do
              let a := (lookupAddr st t.lexeme).getD 0
              let st ← matchTok "identifier" none st
              emit (.PUSHM a) st
          else if t.token_type == "keyword" && (t.lexeme == "true" || t.lexeme == "false") then do
            let v : Nat := if t.lexeme == "true" then 1 else 0
            let st ← matchTok "keyword" none st
            emit (.PUSHI v) st
          else .error (.expectedExpr (some t)))
      run chk fuel .exprOps st
    | .exprOps =>
      (match currentTok st with
      | some t =>
        if t.token_type == "operator" && ["+", "-", "*", "/"].contains t.lexeme then do
          let st ← matchTok "operator" none st
          let st ← run chk fuel .expression st
          let st ← emit (arithInstr t.lexeme) st
          run chk fuel .exprOps st
        else .ok st
      | none => .ok st)
    | .term => do
      let st ← run chk fuel .factor st
      run chk fuel .termLoop st
    | .termLoop =>
      (match currentTok st with
      | some t =>
        if t.lexeme == "*" || t.lexeme == "/" then do
          let st ← matchTok "operator" none st
          let st ← run chk fuel .factor st
          let st ← emit (if t.lexeme == "*" then .MUL else .DIV) st
          run chk fuel .termLoop st
        else .ok st
      | none => .ok st)
    | .factor =>
      (match currentTok st with
      | some t =>
        if t.lexeme == "-" then do
          let st ← matchTok "operator" (some "-") st
          let st ← run chk fuel .primary st
          emit .NEG st
        else run chk fuel .primary st
      | none => run chk fuel .primary st)
    | .primary =>
      (match currentTok st with
      | none => .error .unexpectedEnd
      | some t =>
        if t.token_type == "identifier" then
          match st.tokens[st.idx + 1]? with
          | some u =>
            if u.token_type == "separator" && u.lexeme == "(" then do
              let st ← matchTok "identifier" none st
              let st ← matchTok "separator" (some "(") st
              let st ← run chk fuel (.ids none) st
              matchTok "separator" (some ")") st
            else matchTok "identifier" none st
          | none => matchTok "identifier" none st
        else if t.token_type == "integer" then matchTok "integer" none st
        else if t.token_type == "real" then matchTok "real" none st
        else if t.token_type == "keyword" && (t.lexeme == "true" || t.lexeme == "false") then
          matchTok "keyword" none st
        else if t.token_type == "separator" && t.lexeme == "(" then do
          let st ← matchTok "separator" (some "(") st
          let st ← run chk fuel .expression st
          matchTok "separator" (some ")") st
        else .error .expectedPrim)

/-- The reset state at the start of each compilation run (main.py:443-446):
cursor at 0, empty symbol table, `Memory_Address = 10000`, no instructions. -/
def initState (tks : List Token) : PState :=
  ⟨tks, 0, [], 10000, []⟩

deriving instance DecidableEq for Except

/-- Well-formedness of the symbol table and address counter: addresses are
the base value plus the insertion position, and `Memory_Address` is the base
plus the number of declarations.  It holds at `initState` and is preserved
by the parser. -/
def tableOK (st : PState) : Prop :=
  st.memAddr = 10000 + st.symbols.length ∧
  st.symbols.map (fun e => e.2.1) = List.range' 10000 st.symbols.length

/-- State evolution invariant of one parser step: tokens are read-only, the
cursor only moves forward and stays in bounds, already written instruction
slots other than a reserved backpatch slot of an enclosing `while` (which
lies beyond `lo.instrs`) are never rewritten, and table well-formedness is
preserved. -/
structure PExt (lo hi : PState) : Prop where
  tokens_eq : hi.tokens = lo.tokens
  idx_le : lo.idx ≤ hi.idx
  idx_bound : lo.idx ≤ lo.tokens.length → hi.idx ≤ hi.tokens.length
  instr_le : lo.instrs.length ≤ hi.instrs.length
  instr_pre : hi.instrs.take lo.instrs.length = lo.instrs
  table : tableOK lo → tableOK hi

/-- Declaration-check failures of the checked parser: the two semantic
errors and the raw symbol-table `KeyError` of `scan_statement`. -/
def IsDeclErr (e : PError) : Prop :=
  (∃ n, e = .useBeforeDecl n) ∨ (∃ n, e = .duplicateDecl n) ∨
  (∃ n, e = .keyError n)

/-- Simulation relation between a checked result `x` and the corresponding
check-free result `y`: whenever the check-free run succeeds, the checked run
either succeeds with the identical state or stops at a declaration check. -/
def SimRel (x y : Except PError PState) : Prop :=
  ∀ s, y = .ok s → x = .ok s ∨ ∃ e, IsDeclErr e ∧ x = .error e

/-- The binary-operator guard of `expression`'s operator loop
(main.py:369-371) read off a state: the current token is an operator whose
lexeme is one of `+ - * /`. -/
def isArithAt (st : PState) : Bool :=
  match currentTok st with
  | some t => t.token_type == "operator" && ["+", "-", "*", "/"].contains t.lexeme
  | none => false

/-- Scenario A input (spec §8). -/
def srcA : String := "$$ integer x; $$ x = 5; print(x); $$"

/-- Scenario B input (spec §8). -/
def srcB : String := "$$ integer x; $$ y = 5; $$"

/-- Scenario A input with a trailing token after the final `$$`. -/
def srcTrail : String := "$$ integer x; $$ x = 5; $$ y"

/-- Expected final state of the run on Scenario A. -/
def stA : PState :=
  ⟨lexer srcA, 15, [("x", 10000, "integer")], 10001,
   [.PUSHI 5, .STO "x", .PUSHM 10000, .SOUT]⟩

/-- Expected final state of the run on Scenario B: the run succeeds and
stores into the undeclared `y`. -/
def stB : PState :=
  ⟨lexer srcB, 10, [("x", 10000, "integer")], 10001, [.PUSHI 5, .STO "y"]⟩

/-- Expected final state of the run on `srcTrail`: the run succeeds with the
trailing token left unconsumed (10 of 11 tokens consumed). -/
def stTrail : PState :=
  ⟨lexer srcTrail, 10, [("x", 10000, "integer")], 10001, [.PUSHI 5, .STO "x"]⟩

/-- Token list of a stand-alone `while (x < 3) { } endwhile` statement. -/
def wTokens : List Token :=
  [⟨"keyword", "while"⟩, ⟨"separator", "("⟩, ⟨"identifier", "x"⟩,
   ⟨"operator", "<"⟩, ⟨"integer", "3"⟩, ⟨"separator", ")"⟩,
   ⟨"separator", "\x7b"⟩, ⟨"separator", "\x7d"⟩, ⟨"keyword", "endwhile"⟩]

/-- State at the start of the stand-alone `while` statement, with `x`
declared. -/
def wStart : PState := ⟨wTokens, 0, [("x", 10000, "integer")], 10001, []⟩

/-- Expected state after parsing the stand-alone `while` statement. -/
def wEnd : PState :=
  ⟨wTokens, 9, [("x", 10000, "integer")], 10001,
   [.PUSHM 10000, .PUSHI 3, .CMP "CMP_LT", .LABEL, .JMP0 7, .JMP 4]⟩

/-- Token list of a stand-alone `if (x < 3) x = 1; endif` statement. -/
def ifTokens : List Token :=
  [⟨"keyword", "if"⟩, ⟨"separator", "("⟩, ⟨"identifier", "x"⟩,
   ⟨"operator", "<"⟩, ⟨"integer", "3"⟩, ⟨"separator", ")"⟩,
   ⟨"identifier", "x"⟩, ⟨"operator", "="⟩, ⟨"integer", "1"⟩,
   ⟨"separator", ";"⟩, ⟨"keyword", "endif"⟩]

/-- State at the start of the stand-alone `if` statement, with `x`
declared. -/
def ifStart : PState := ⟨ifTokens, 0, [("x", 10000, "integer")], 10001, []⟩

/-- Expected state after parsing the stand-alone `if` statement: condition
code then branch code, no jumps. -/
def ifEnd : PState :=
  ⟨ifTokens, 11, [("x", 10000, "integer")], 10001,
   [.PUSHM 10000, .PUSHI 3, .CMP "CMP_LT", .PUSHI 1, .STO "x"]⟩

/-- Token list of the expression `a * b + c`. -/
def exprTokens : List Token :=
  [⟨"identifier", "a"⟩, ⟨"operator", "*"⟩, ⟨"identifier", "b"⟩,
   ⟨"operator", "+"⟩, ⟨"identifier", "c"⟩]

/-- State at the start of the expression `a * b + c`, with `a`, `b`, `c`
declared. -/
def exprStart : PState :=
  ⟨exprTokens, 0,
   [("a", 10000, "integer"), ("b", 10001, "integer"), ("c", 10002, "integer")],
   10003, []⟩

/-- Expected state after parsing `a * b + c`: the addition instruction `A`
is emitted before the multiplication instruction `M`. -/
def exprEnd : PState :=
  ⟨exprTokens, 5,
   [("a", 10000, "integer"), ("b", 10001, "integer"), ("c", 10002, "integer")],
   10003, [.PUSHM 10000, .PUSHM 10001, .PUSHM 10002, .A, .M]⟩

/-- State sitting before the operator tail `+ 1` of an expression. -/
def opStart : PState :=
  ⟨[⟨"operator", "+"⟩, ⟨"integer", "1"⟩], 0, [], 10000, []⟩

/-- Expected state after the operator loop consumes `+ 1`: the right
operand's instructions, then one arithmetic instruction. -/
def opEnd : PState :=
  ⟨[⟨"operator", "+"⟩, ⟨"integer", "1"⟩], 2, [], 10000, [.PUSHI 1, .A]⟩

/-- Token list of a stand-alone `scan(x);` statement. -/
def scanTokens : List Token :=
  [⟨"keyword", "scan"⟩, ⟨"separator", "("⟩, ⟨"identifier", "x"⟩,
   ⟨"separator", ")"⟩, ⟨"separator", ";"⟩]

/-- State at the start of `scan(x);` with `x` declared. -/
def scanStart : PState := ⟨scanTokens, 0, [("x", 10000, "integer")], 10001, []⟩

/-- State at the start of `scan(x);` with nothing declared. -/
def scanStartU : PState := ⟨scanTokens, 0, [], 10000, []⟩

/-- Decomposition of a successful `Except` bind. -/
theorem bind_ok {x : Except PError PState} {f : PState → Except PError PState}
    {b : PState} (h : x >>= f = .ok b) : ∃ a, x = .ok a ∧ f a = .ok b := by
  cases x with
  | ok a => exact ⟨a, rfl, h⟩
  | error e => exact absurd h (by simp [Bind.bind, Except.bind])

/-- A token is present at the cursor only while the cursor is in bounds. -/
theorem currentTok_lt {st : PState} {t : Token} (h : currentTok st = some t) :
    st.idx < st.tokens.length := by
  unfold currentTok at h
  by_contra hlt
  rw [List.getElem?_eq_none (by omega)] at h
  exact Option.noConfusion h

/-- Characterization of a successful `matchTok`. -/
theorem matchTok_ok {ty : String} {lx : Option String} {st st' : PState}
    (h : matchTok ty lx st = .ok st') :
    st' = { st with idx := st.idx + 1 } ∧
    ∃ t, currentTok st = some t ∧ t.token_type = ty ∧
      (lx = none ∨ lx = some t.lexeme) := by
  unfold matchTok at h
  cases hc : currentTok st with
  | none => rw [hc] at h; exact absurd h (by simp)
  | some t =>
    simp only [hc] at h
    by_cases hb : (t.token_type == ty && (lx.isNone || lx == some t.lexeme)) = true
    · rw [if_pos hb] at h
      simp only [Bool.and_eq_true, beq_iff_eq, Bool.or_eq_true, Option.isNone_iff_eq_none]
        at hb
      cases h
      exact ⟨rfl, t, rfl, hb.1, hb.2⟩
    · rw [if_neg hb] at h; exact absurd h (by simp)

/-- Characterization of a successful `emit`. -/
theorem emit_ok {i : Instr} {st st' : PState} (h : emit i st = .ok st') :
    st' = { st with instrs := st.instrs ++ [i] } ∧
    st.instrs.length < MAX_INSTR := by
  unfold emit at h
  by_cases hb : st.instrs.length < MAX_INSTR
  · rw [if_pos hb] at h; cases h; exact ⟨rfl, hb⟩
  · rw [if_neg hb] at h; exact absurd h (by simp)

/-- Characterization of a successful `insert_identifier`. -/
theorem insert_ok {chk : Bool} {n ty : String} {st st' : PState}
    (h : insert_identifier chk n ty st = .ok st') :
    st' = { st with symbols := st.symbols ++ [(n, st.memAddr, ty)],
                    memAddr := st.memAddr + 1 } := by
  unfold insert_identifier at h
  by_cases hb : (chk && is_declared st n) = true
  · rw [if_pos hb] at h; exact absurd h (by simp)
  · rw [if_neg hb] at h; cases h; rfl

theorem PExt.refl {st : PState} : PExt st st :=
  ⟨rfl, le_refl _, fun h => h, le_refl _, List.take_length _, fun h => h⟩

theorem PExt.trans {a b c : PState} (h1 : PExt a b) (h2 : PExt b c) : PExt a c := by
  refine ⟨h2.tokens_eq.trans h1.tokens_eq, le_trans h1.idx_le h2.idx_le, ?_,
    le_trans h1.instr_le h2.instr_le, ?_, fun ht => h2.table (h1.table ht)⟩
  · intro hb
    exact h2.idx_bound (h1.idx_bound hb)
  · have : c.instrs.take a.instrs.length =
        (c.instrs.take b.instrs.length).take a.instrs.length := by
      rw [List.take_take, min_eq_left h1.instr_le]
    rw [this, h2.instr_pre, h1.instr_pre]

theorem matchTok_ext {ty : String} {lx : Option String} {st st' : PState}
    (h : matchTok ty lx st = .ok st') : PExt st st' := by
  obtain ⟨hst, t, hc, -⟩ := matchTok_ok h
  have hlt := currentTok_lt hc
  subst hst
  exact ⟨rfl, Nat.le_succ _, fun _ => hlt, le_refl _,
    List.take_length _, fun h => h⟩

theorem emit_ext {i : Instr} {st st' : PState} (h : emit i st = .ok st') :
    PExt st st' := by
  obtain ⟨hst, -⟩ := emit_ok h
  subst hst
  exact ⟨rfl, le_refl _, fun h => h, by simp, by simp, fun h => h⟩

theorem insert_ext {chk : Bool} {n ty : String} {st st' : PState}
    (h : insert_identifier chk n ty st = .ok st') : PExt st st' := by
  have hst := insert_ok h
  subst hst
  refine ⟨rfl, le_refl _, fun h => h, le_refl _, List.take_length _, ?_⟩
  rintro ⟨hm, ha⟩
  refine ⟨by simp [hm, Nat.add_assoc], ?_⟩
  simp only [List.map_append, List.length_append, List.map_cons, List.map_nil,
    List.length_singleton, ha, hm, List.range'_concat]
  simp

/-- Overwriting a slot at or beyond `lo.instrs` preserves the invariant. -/
theorem PExt.set {lo hi : PState} (h : PExt lo hi) {j : Nat} {v : Instr}
    (hj : lo.instrs.length ≤ j) :
    PExt lo { hi with instrs := hi.instrs.set j v } := by
  refine ⟨h.tokens_eq, h.idx_le, ?_, by simpa using h.instr_le, ?_, h.table⟩
  · intro hb; simpa using h.idx_bound hb
  · have htk : (hi.instrs.set j v).take lo.instrs.length =
        hi.instrs.take lo.instrs.length := by
      apply List.ext_getElem
      · simp
      · intro i h1 h2
        simp only [List.getElem_take]
        apply List.getElem_set_ne
        simp only [List.length_take, lt_min_iff] at h1
        omega
    rw [htk, h.instr_pre]

/-- Master frame lemma: every successful parser step satisfies `PExt`. -/
theorem run_ext (fuel : Nat) : ∀ (chk : Bool) (f : PTag) (st st' : PState),
    run chk fuel f st = .ok st' → PExt st st' := by
  induction fuel with
  | zero => intro chk f st st' h; exact absurd h (by simp [run])
  | succ fuel ih =>
    intro chk f st st' h
    cases f with
    | rat25s =>
      simp only [run] at h
      obtain ⟨s1, h1, h⟩ := bind_ok h
      obtain ⟨s2, h2, h⟩ := bind_ok h
      obtain ⟨s3, h3, h⟩ := bind_ok h
      obtain ⟨s4, h4, h⟩ := bind_ok h
      obtain ⟨s5, h5, h⟩ := bind_ok h
      have e4 : PExt s3 s4 := by
        cases hc : currentTok s3 with
        | none => simp only [hc] at h4; cases h4; exact PExt.refl
        | some t =>
          simp only [hc] at h4
          by_cases hb : (t.token_type == "separator" && t.lexeme == "$$") = true
          · rw [if_pos hb] at h4; exact matchTok_ext h4
          · rw [if_neg hb] at h4; cases h4; exact PExt.refl
      exact ((((matchTok_ext h1).trans (ih _ _ _ _ h2)).trans
        (ih _ _ _ _ h3)).trans e4).trans ((ih _ _ _ _ h5).trans (matchTok_ext h))
    | skipDollars =>
      simp only [run] at h
      cases hc : currentTok st with
      | none => simp only [hc] at h; cases h; exact PExt.refl
      | some t =>
        simp only [hc] at h
        by_cases hb : (t.token_type == "separator" && t.lexeme == "$$") = true
        · rw [if_pos hb] at h
          obtain ⟨s1, h1, h⟩ := bind_ok h
          exact (matchTok_ext h1).trans (ih _ _ _ _ h)
        · rw [if_neg hb] at h; cases h; exact PExt.refl
    | optDeclList =>
      simp only [run] at h
      cases hc : currentTok st with
      | none => simp only [hc] at h; cases h; exact PExt.refl
      | some t =>
        simp only [hc] at h
        by_cases hb : (t.token_type == "keyword" && ["integer", "boolean"].contains t.lexeme) = true
        · rw [if_pos hb] at h; exact ih _ _ _ _ h
        · rw [if_neg hb] at h; cases h; exact PExt.refl
    | declList =>
      simp only [run] at h
      obtain ⟨s1, h1, h⟩ := bind_ok h
      obtain ⟨s2, h2, h⟩ := bind_ok h
      exact ((ih _ _ _ _ h1).trans (matchTok_ext h2)).trans (ih _ _ _ _ h)
    | declLoop =>
      simp only [run] at h
      cases hc : currentTok st with
      | none => simp only [hc] at h; cases h; exact PExt.refl
      | some t =>
        simp only [hc] at h
        by_cases hb : (t.token_type == "keyword" &&
            ["integer", "boolean", "real"].contains t.lexeme) = true
        · rw [if_pos hb] at h
          obtain ⟨s1, h1, h⟩ := bind_ok h
          obtain ⟨s2, h2, h⟩ := bind_ok h
          exact ((ih _ _ _ _ h1).trans (matchTok_ext h2)).trans (ih _ _ _ _ h)
        · rw [if_neg hb] at h; cases h; exact PExt.refl
    | decl =>
      simp only [run] at h
      cases hc : currentTok st with
      | none => simp only [hc] at h; exact absurd h (by simp)
      | some t =>
        simp only [hc] at h
        obtain ⟨s1, h1, h⟩ := bind_ok h
        exact (ih _ _ _ _ h1).trans (ih _ _ _ _ h)
    | qualifier =>
      simp only [run] at h
      cases hc : currentTok st with
      | none => simp only [hc] at h; exact absurd h (by simp)
      | some t =>
        simp only [hc] at h
        by_cases hb : (["integer", "boolean"].contains t.lexeme) = true
        · rw [if_pos hb] at h; exact matchTok_ext h
        · rw [if_neg hb] at h; exact absurd h (by simp)
    | ids vt =>
      simp only [run] at h
      cases hc : currentTok st with
      | none => simp only [hc] at h; exact absurd h (by simp)
      | some t =>
        simp only [hc] at h
        by_cases hb : (t.token_type == "identifier") = true
        · rw [if_pos hb] at h
          obtain ⟨s1, h1, h⟩ := bind_ok h
          have e1 : PExt st s1 := by
            cases vt with
            | some ty => exact insert_ext h1
            | none =>
              by_cases hb2 : (chk && !is_declared st t.lexeme) = true
              · rw [if_pos hb2] at h1; exact absurd h1 (by simp)
              · rw [if_neg hb2] at h1; cases h1; exact PExt.refl
          obtain ⟨s2, h2, h⟩ := bind_ok h
          have e2 : PExt st s2 := e1.trans (matchTok_ext h2)
          cases hc2 : currentTok s2 with
          | none => simp only [hc2] at h; cases h; exact e2
          | some u =>
            simp only [hc2] at h
            by_cases hb3 : (u.token_type == "separator" && u.lexeme == ",") = true
            · rw [if_pos hb3] at h
              obtain ⟨s3, h3, h⟩ := bind_ok h
              exact (e2.trans (matchTok_ext h3)).trans (ih _ _ _ _ h)
            · rw [if_neg hb3] at h; cases h; exact e2
        · rw [if_neg hb] at h; exact absurd h (by simp)
    | stmtList terms =>
      simp only [run] at h
      cases hc : currentTok st with
      | none => simp only [hc] at h; cases h; exact PExt.refl
      | some t =>
        simp only [hc] at h
        by_cases hb : (terms.contains t.lexeme) = true
        · rw [if_pos hb] at h; cases h; exact PExt.refl
        · rw [if_neg hb] at h
          obtain ⟨s1, h1, h⟩ := bind_ok h
          exact (ih _ _ _ _ h1).trans (ih _ _ _ _ h)
    | stmt =>
      simp only [run] at h
      cases hc : currentTok st with
      | none => simp only [hc] at h; exact absurd h (by simp)
      | some t =>
        simp only [hc] at h
        by_cases hb1 : (t.token_type == "separator" && t.lexeme == "\x7b") = true
        · rw [if_pos hb1] at h; exact ih _ _ _ _ h
        · rw [if_neg hb1] at h
          by_cases hb2 : (t.token_type == "keyword") = true
          · rw [if_pos hb2] at h
            by_cases hb3 : (t.lexeme == "if") = true
            · rw [if_pos hb3] at h; exact ih _ _ _ _ h
            · rw [if_neg hb3] at h
              by_cases hb4 : (t.lexeme == "while") = true
              · rw [if_pos hb4] at h; exact ih _ _ _ _ h
              · rw [if_neg hb4] at h
                by_cases hb5 : (t.lexeme == "return") = true
                · rw [if_pos hb5] at h; exact ih _ _ _ _ h
                · rw [if_neg hb5] at h
                  by_cases hb6 : (t.lexeme == "print") = true
                  · rw [if_pos hb6] at h; exact ih _ _ _ _ h
                  · rw [if_neg hb6] at h
                    by_cases hb7 : (t.lexeme == "scan") = true
                    · rw [if_pos hb7] at h; exact ih _ _ _ _ h
                    · rw [if_neg hb7] at h; exact absurd h (by simp)
          · rw [if_neg hb2] at h
            by_cases hb8 : (t.token_type == "identifier") = true
            · rw [if_pos hb8] at h; exact ih _ _ _ _ h
            · rw [if_neg hb8] at h; exact absurd h (by simp)
    | compound =>
      simp only [run] at h
      obtain ⟨s1, h1, h⟩ := bind_ok h
      obtain ⟨s2, h2, h⟩ := bind_ok h
      exact ((matchTok_ext h1).trans (ih _ _ _ _ h2)).trans (matchTok_ext h)
    | assign =>
      simp only [run] at h
      cases hc : currentTok st with
      | none => simp only [hc] at h; exact absurd h (by simp)
      | some t =>
        simp only [hc] at h
        obtain ⟨s1, h1, h⟩ := bind_ok h
        obtain ⟨s2, h2, h⟩ := bind_ok h
        obtain ⟨s3, h3, h⟩ := bind_ok h
        obtain ⟨s4, h4, h⟩ := bind_ok h
        exact ((((matchTok_ext h1).trans (matchTok_ext h2)).trans
          (ih _ _ _ _ h3)).trans (matchTok_ext h4)).trans (emit_ext h)
    | scanStmt =>
      simp only [run] at h
      obtain ⟨s1, h1, h⟩ := bind_ok h
      obtain ⟨s2, h2, h⟩ := bind_ok h
      cases hc : currentTok s2 with
      | none => simp only [hc] at h; exact absurd h (by simp)
      | some t =>
        simp only [hc] at h
        obtain ⟨s3, h3, h⟩ := bind_ok h
        obtain ⟨s4, h4, h⟩ := bind_ok h
        obtain ⟨s5, h5, h⟩ := bind_ok h
        by_cases hb : (chk && (lookupAddr s5 t.lexeme).isNone) = true
        · rw [if_pos hb] at h; exact absurd h (by simp)
        · rw [if_neg hb] at h
          obtain ⟨s6, h6, h⟩ := bind_ok h
          exact ((((((matchTok_ext h1).trans (matchTok_ext h2)).trans
            (matchTok_ext h3)).trans (matchTok_ext h4)).trans
            (matchTok_ext h5)).trans (emit_ext h6)).trans (emit_ext h)
    | printStmt =>
      simp only [run] at h
      obtain ⟨s1, h1, h⟩ := bind_ok h
      obtain ⟨s2, h2, h⟩ := bind_ok h
      obtain ⟨s3, h3, h⟩ := bind_ok h
      obtain ⟨s4, h4, h⟩ := bind_ok h
      obtain ⟨s5, h5, h⟩ := bind_ok h
      exact (((((matchTok_ext h1).trans (matchTok_ext h2)).trans
        (ih _ _ _ _ h3)).trans (matchTok_ext h4)).trans
        (matchTok_ext h5)).trans (emit_ext h)
    | whileStmt =>
      simp only [run] at h
      obtain ⟨s1, h1, h⟩ := bind_ok h
      obtain ⟨s2, h2, h⟩ := bind_ok h
      obtain ⟨s3, h3, h⟩ := bind_ok h
      obtain ⟨s4, h4, h⟩ := bind_ok h
      obtain ⟨s5, h5, h⟩ := bind_ok h
      obtain ⟨s6, h6, h⟩ := bind_ok h
      obtain ⟨s7, h7, h⟩ := bind_ok h
      obtain ⟨s8, h8, h⟩ := bind_ok h
      obtain ⟨s9, h9, h⟩ := bind_ok h
      obtain ⟨s10, h10, h⟩ := bind_ok h
      have e4 : PExt st s4 := (((matchTok_ext h1).trans (matchTok_ext h2)).trans
        (ih _ _ _ _ h3)).trans (matchTok_ext h4)
      have e10 : PExt st s10 := ((((((e4.trans (emit_ext h5)).trans
        (emit_ext h6)).trans (matchTok_ext h7)).trans (ih _ _ _ _ h8)).trans
        (matchTok_ext h9)).trans (emit_ext h10))
      have hj : st.instrs.length ≤ s5.instrs.length + 1 - 1 := by
        have := (e4.trans (emit_ext h5)).instr_le
        omega
      exact (e10.set hj).trans (matchTok_ext h)
    | ifStmt =>
      simp only [run] at h
      obtain ⟨s1, h1, h⟩ := bind_ok h
      obtain ⟨s2, h2, h⟩ := bind_ok h
      obtain ⟨s3, h3, h⟩ := bind_ok h
      obtain ⟨s4, h4, h⟩ := bind_ok h
      obtain ⟨s5, h5, h⟩ := bind_ok h
      obtain ⟨s6, h6, h⟩ := bind_ok h
      have e5 : PExt st s5 := ((((matchTok_ext h1).trans (matchTok_ext h2)).trans
        (ih _ _ _ _ h3)).trans (matchTok_ext h4)).trans (ih _ _ _ _ h5)
      have e6 : PExt s5 s6 := by
        cases hc : currentTok s5 with
        | none => simp only [hc] at h6; cases h6; exact PExt.refl
        | some t =>
          simp only [hc] at h6
          by_cases hb : (t.lexeme == "else") = true
          · rw [if_pos hb] at h6
            obtain ⟨s7, h7, h6⟩ := bind_ok h6
            exact (matchTok_ext h7).trans (ih _ _ _ _ h6)
          · rw [if_neg hb] at h6; cases h6; exact PExt.refl
      exact (e5.trans e6).trans (matchTok_ext h)
    | returnStmt =>
      simp only [run] at h
      obtain ⟨s1, h1, h⟩ := bind_ok h
      obtain ⟨s2, h2, h⟩ := bind_ok h
      have e2 : PExt s1 s2 := by
        cases hc : currentTok s1 with
        | none => simp only [hc] at h2; cases h2; exact PExt.refl
        | some t =>
          simp only [hc] at h2
          by_cases hb : (!(t.lexeme == ";")) = true
          · rw [if_pos hb] at h2; exact ih _ _ _ _ h2
          · rw [if_neg hb] at h2; cases h2; exact PExt.refl
      exact ((matchTok_ext h1).trans e2).trans (matchTok_ext h)
    | condition =>
      simp only [run] at h
      obtain ⟨s1, h1, h⟩ := bind_ok h
      cases hc : currentTok s1 with
      | none => simp only [hc] at h; exact absurd h (by simp)
      | some t =>
        simp only [hc] at h
        obtain ⟨s2, h2, h⟩ := bind_ok h
        obtain ⟨s3, h3, h⟩ := bind_ok h
        cases hm : cmpMap t.lexeme with
        | none => simp only [hm] at h; exact absurd h (by simp)
        | some c =>
          simp only [hm] at h
          exact (((ih _ _ _ _ h1).trans (matchTok_ext h2)).trans
            (ih _ _ _ _ h3)).trans (emit_ext h)
    | expression =>
      simp only [run] at h
      obtain ⟨s1, h1, h⟩ := bind_ok h
      have e1 : PExt st s1 := by
        cases hc : currentTok st with
        | none => simp only [hc] at h1; exact absurd h1 (by simp)
        | some t =>
          simp only [hc] at h1
          by_cases hb : (t.token_type == "integer") = true
          · rw [if_pos hb] at h1
            cases hd : decNat t.lexeme with
            | none => simp only [hd] at h1; exact absurd h1 (by simp)
            | some v =>
              simp only [hd] at h1
              obtain ⟨s0, h0, h1⟩ := bind_ok h1
              exact (matchTok_ext h0).trans (emit_ext h1)
          · rw [if_neg hb] at h1
            by_cases hb2 : (t.token_type == "identifier") = true
            · rw [if_pos hb2] at h1
              by_cases hb3 : (chk && !is_declared st t.lexeme) = true
              · rw [if_pos hb3] at h1; exact absurd h1 (by simp)
              · rw [if_neg hb3] at h1
                obtain ⟨s0, h0, h1⟩ := bind_ok h1
                exact (matchTok_ext h0).trans (emit_ext h1)
            · rw [if_neg hb2] at h1
              by_cases hb4 : (t.token_type == "keyword" &&
                  (t.lexeme == "true" || t.lexeme == "false")) = true
              · rw [if_pos hb4] at h1
                obtain ⟨s0, h0, h1⟩ := bind_ok h1
                exact (matchTok_ext h0).trans (emit_ext h1)
              · rw [if_neg hb4] at h1; exact absurd h1 (by simp)
      exact e1.trans (ih _ _ _ _ h)
    | exprOps =>
      simp only [run] at h
      cases hc : currentTok st with
      | none => simp only [hc] at h; cases h; exact PExt.refl
      | some t =>
        simp only [hc] at h
        by_cases hb : (t.token_type == "operator" &&
            ["+", "-", "*", "/"].contains t.lexeme) = true
        · rw [if_pos hb] at h
          obtain ⟨s1, h1, h⟩ := bind_ok h
          obtain ⟨s2, h2, h⟩ := bind_ok h
          obtain ⟨s3, h3, h⟩ := bind_ok h
          exact (((matchTok_ext h1).trans (ih _ _ _ _ h2)).trans
            (emit_ext h3)).trans (ih _ _ _ _ h)
        · rw [if_neg hb] at h; cases h; exact PExt.refl
    | term =>
      simp only [run] at h
      obtain ⟨s1, h1, h⟩ := bind_ok h
      exact (ih _ _ _ _ h1).trans (ih _ _ _ _ h)
    | termLoop =>
      simp only [run] at h
      cases hc : currentTok st with
      | none => simp only [hc] at h; cases h; exact PExt.refl
      | some t =>
        simp only [hc] at h
        by_cases hb : (t.lexeme == "*" || t.lexeme == "/") = true
        · rw [if_pos hb] at h
          obtain ⟨s1, h1, h⟩ := bind_ok h
          obtain ⟨s2, h2, h⟩ := bind_ok h
          obtain ⟨s3, h3, h⟩ := bind_ok h
          exact (((matchTok_ext h1).trans (ih _ _ _ _ h2)).trans
            (emit_ext h3)).trans (ih _ _ _ _ h)
        · rw [if_neg hb] at h; cases h; exact PExt.refl
    | factor =>
      simp only [run] at h
      cases hc : currentTok st with
      | none => simp only [hc] at h; exact ih _ _ _ _ h
      | some t =>
        simp only [hc] at h
        by_cases hb : (t.lexeme == "-") = true
        · rw [if_pos hb] at h
          obtain ⟨s1, h1, h⟩ := bind_ok h
          obtain ⟨s2, h2, h⟩ := bind_ok h
          exact ((matchTok_ext h1).trans (ih _ _ _ _ h2)).trans (emit_ext h)
        · rw [if_neg hb] at h; exact ih _ _ _ _ h
    | primary =>
      simp only [run] at h
      cases hc : currentTok st with
      | none => simp only [hc] at h; exact absurd h (by simp)
      | some t =>
        simp only [hc] at h
        by_cases hb : (t.token_type == "identifier") = true
        · rw [if_pos hb] at h
          cases hn : st.tokens[st.idx + 1]? with
          | some u =>
            simp only [hn] at h
            by_cases hb2 : (u.token_type == "separator" && u.lexeme == "(") = true
            · rw [if_pos hb2] at h
              obtain ⟨s1, h1, h⟩ := bind_ok h
              obtain ⟨s2, h2, h⟩ := bind_ok h
              obtain ⟨s3, h3, h⟩ := bind_ok h
              exact (((matchTok_ext h1).trans (matchTok_ext h2)).trans
                (ih _ _ _ _ h3)).trans (matchTok_ext h)
            · rw [if_neg hb2] at h; exact matchTok_ext h
          | none => simp only [hn] at h; exact matchTok_ext h
        · rw [if_neg hb] at h
          by_cases hb2 : (t.token_type == "integer") = true
          · rw [if_pos hb2] at h; exact matchTok_ext h
          · rw [if_neg hb2] at h
            by_cases hb3 : (t.token_type == "real") = true
            · rw [if_pos hb3] at h; exact matchTok_ext h
            · rw [if_neg hb3] at h
              by_cases hb4 : (t.token_type == "keyword" &&
                  (t.lexeme == "true" || t.lexeme == "false")) = true
              · rw [if_pos hb4] at h; exact matchTok_ext h
              · rw [if_neg hb4] at h
                by_cases hb5 : (t.token_type == "separator" && t.lexeme == "(") = true
                · rw [if_pos hb5] at h
                  obtain ⟨s1, h1, h⟩ := bind_ok h
                  obtain ⟨s2, h2, h⟩ := bind_ok h
                  exact ((matchTok_ext h1).trans (ih _ _ _ _ h2)).trans (matchTok_ext h)
                · rw [if_neg hb5] at h; exact absurd h (by simp)

theorem simRel_refl (x : Except PError PState) : SimRel x x := fun _ h => Or.inl h

theorem simRel_declErr {e : PError} (he : IsDeclErr e) (y : Except PError PState) :
    SimRel (.error e) y := fun _ _ => Or.inr ⟨e, he, rfl⟩

theorem simRel_bind {x y : Except PError PState} {f g : PState → Except PError PState}
    (h1 : SimRel x y) (h2 : ∀ s, SimRel (f s) (g s)) : SimRel (x >>= f) (y >>= g) := by
  intro s' hs'
  cases y with
  | error e => exact absurd hs' (by simp [Bind.bind, Except.bind])
  | ok a =>
    rcases h1 a rfl with hx | ⟨e, he, hx⟩
    · rw [hx]
      exact h2 a s' hs'
    · rw [hx]
      exact Or.inr ⟨e, he, rfl⟩

theorem insert_sim (n ty : String) (st : PState) :
    SimRel (insert_identifier true n ty st) (insert_identifier false n ty st) := by
  unfold insert_identifier
  cases hd : is_declared st n with
  | true =>
    rw [if_pos (by simp [hd]), if_neg (by simp)]
    exact simRel_declErr (Or.inr (Or.inl ⟨n, rfl⟩)) _
  | false =>
    rw [if_neg (by simp [hd]), if_neg (by simp)]
    exact simRel_refl _

set_option maxHeartbeats 1000000 in
theorem run_sim (fuel : Nat) : ∀ (f : PTag) (st : PState),
    SimRel (run true fuel f st) (run false fuel f st) := by
  induction fuel with
  | zero => intro f st s h; exact absurd h (by simp [run])
  | succ fuel ih =>
    intro f st
    cases f with
    | rat25s =>
      simp only [run]
      refine simRel_bind (simRel_refl _) ?_
      intro s1
      refine simRel_bind (ih _ _) ?_
      intro s2
      refine simRel_bind (ih _ _) ?_
      intro s3
      refine simRel_bind (simRel_refl _) ?_
      intro s4
      refine simRel_bind (ih _ _) ?_
      intro s5
      exact simRel_refl _
    | skipDollars =>
      simp only [run]
      cases hc : currentTok st with
      | none => exact simRel_refl _
      | some t =>
        by_cases hb : (t.token_type == "separator" && t.lexeme == "$$") = true
        · simp only [hb, if_true]
          refine simRel_bind (simRel_refl _) ?_
          intro s1
          exact ih _ _
        · simp only [hb, if_false]
          exact simRel_refl _
    | ids vt =>
      simp only [run]
      cases hc : currentTok st with
      | none => exact simRel_refl _
      | some t =>
        by_cases hb : (t.token_type == "identifier") = true
        · simp only [hb, if_true]
          refine simRel_bind ?_ ?_
          · cases vt with
            | some ty =>
              dsimp only
              exact insert_sim t.lexeme ty st
            | none =>
              dsimp only
              cases hd : is_declared st t.lexeme with
              | true =>
                rw [if_neg (by simp [hd])]
                exact simRel_refl _
              | false =>
                rw [if_pos (by simp [hd])]
                exact simRel_declErr (Or.inl ⟨t.lexeme, rfl⟩) _
          · intro s1
            refine simRel_bind (simRel_refl _) ?_
            intro s2
            cases hc2 : currentTok s2 with
            | none => exact simRel_refl _
            | some u =>
              by_cases hb3 : (u.token_type == "separator" && u.lexeme == ",") = true
              · simp only [hb3, if_true]
                refine simRel_bind (simRel_refl _) ?_
                intro s3
                exact ih _ _
              · simp only [hb3, if_false]
                exact simRel_refl _
        · simp only [hb, if_false]
          exact simRel_refl _
    | optDeclList =>
      simp only [run]
      cases hc : currentTok st with
      | none => exact simRel_refl _
      | some t =>
        by_cases hb : (t.token_type == "keyword" && ["integer", "boolean"].contains t.lexeme) = true
        · simp only [hb, if_true]
          exact ih _ _
        · simp only [hb, if_false]
          exact simRel_refl _
    | declList =>
      simp only [run]
      refine simRel_bind (ih _ _) ?_
      intro s1
      refine simRel_bind (simRel_refl _) ?_
      intro s2
      exact ih _ _
    | declLoop =>
      simp only [run]
      cases hc : currentTok st with
      | none => exact simRel_refl _
      | some t =>
        by_cases hb : (t.token_type == "keyword" &&
            ["integer", "boolean", "real"].contains t.lexeme) = true
        · simp only [hb, if_true]
          refine simRel_bind (ih _ _) ?_
          intro s1
          refine simRel_bind (simRel_refl _) ?_
          intro s2
          exact ih _ _
        · simp only [hb, if_false]
          exact simRel_refl _
    | decl =>
      simp only [run]
      cases hc : currentTok st with
      | none => exact simRel_refl _
      | some t =>
        refine simRel_bind (ih _ _) ?_
        intro s1
        exact ih _ _
    | qualifier =>
      simp only [run]
      exact simRel_refl _
    | stmtList terms =>
      simp only [run]
      cases hc : currentTok st with
      | none => exact simRel_refl _
      | some t =>
        by_cases hb : (terms.contains t.lexeme) = true
        · simp only [hb, if_true]
          exact simRel_refl _
        · simp only [hb, if_false]
          refine simRel_bind (ih _ _) ?_
          intro s1
          exact ih _ _
    | stmt =>
      simp only [run]
      cases hc : currentTok st with
      | none => exact simRel_refl _
      | some t =>
        by_cases hb1 : (t.token_type == "separator" && t.lexeme == "\x7b") = true
        · simp only [hb1, if_true]; exact ih _ _
        · simp only [hb1, if_false]
          by_cases hb2 : (t.token_type == "keyword") = true
          · simp only [hb2, if_true]
            by_cases hb3 : (t.lexeme == "if") = true
            · simp only [hb3, if_true]; exact ih _ _
            · simp only [hb3, if_false]
              by_cases hb4 : (t.lexeme == "while") = true
              · simp only [hb4, if_true]; exact ih _ _
              · simp only [hb4, if_false]
                by_cases hb5 : (t.lexeme == "return") = true
                · simp only [hb5, if_true]; exact ih _ _
                · simp only [hb5, if_false]
                  by_cases hb6 : (t.lexeme == "print") = true
                  · simp only [hb6, if_true]; exact ih _ _
                  · simp only [hb6, if_false]
                    by_cases hb7 : (t.lexeme == "scan") = true
                    · simp only [hb7, if_true]; exact ih _ _
                    · simp only [hb7, if_false]; exact simRel_refl _
          · simp only [hb2, if_false]
            by_cases hb8 : (t.token_type == "identifier") = true
            · simp only [hb8, if_true]; exact ih _ _
            · simp only [hb8, if_false]; exact simRel_refl _
    | compound =>
      simp only [run]
      refine simRel_bind (simRel_refl _) ?_
      intro s1
      refine simRel_bind (ih _ _) ?_
      intro s2
      exact simRel_refl _
    | assign =>
      simp only [run]
      cases hc : currentTok st with
      | none => exact simRel_refl _
      | some t =>
        refine simRel_bind (simRel_refl _) ?_
        intro s1
        refine simRel_bind (simRel_refl _) ?_
        intro s2
        refine simRel_bind (ih _ _) ?_
        intro s3
        exact simRel_refl _
    | scanStmt =>
      simp only [run]
      refine simRel_bind (simRel_refl _) ?_
      intro s1
      refine simRel_bind (simRel_refl _) ?_
      intro s2
      cases hc : currentTok s2 with
      | none => exact simRel_refl _
      | some t =>
        refine simRel_bind (simRel_refl _) ?_
        intro s3
        refine simRel_bind (simRel_refl _) ?_
        intro s4
        refine simRel_bind (simRel_refl _) ?_
        intro s5
        cases hn : (lookupAddr s5 t.lexeme).isNone with
        | true =>
          rw [if_pos (by simp [hn])]
          exact simRel_declErr (Or.inr (Or.inr ⟨t.lexeme, rfl⟩)) _
        | false =>
          rw [if_neg (by simp [hn])]
          exact simRel_refl _
    | printStmt =>
      simp only [run]
      refine simRel_bind (simRel_refl _) ?_
      intro s1
      refine simRel_bind (simRel_refl _) ?_
      intro s2
      refine simRel_bind (ih _ _) ?_
      intro s3
      exact simRel_refl _
    | whileStmt =>
      simp only [run]
      refine simRel_bind (simRel_refl _) ?_
      intro s1
      refine simRel_bind (simRel_refl _) ?_
      intro s2
      refine simRel_bind (ih _ _) ?_
      intro s3
      refine simRel_bind (simRel_refl _) ?_
      intro s4
      refine simRel_bind (simRel_refl _) ?_
      intro s5
      refine simRel_bind (simRel_refl _) ?_
      intro s6
      refine simRel_bind (simRel_refl _) ?_
      intro s7
      refine simRel_bind (ih _ _) ?_
      intro s8
      exact simRel_refl _
    | ifStmt =>
      simp only [run]
      refine simRel_bind (simRel_refl _) ?_
      intro s1
      refine simRel_bind (simRel_refl _) ?_
      intro s2
      refine simRel_bind (ih _ _) ?_
      intro s3
      refine simRel_bind (simRel_refl _) ?_
      intro s4
      refine simRel_bind (ih _ _) ?_
      intro s5
      refine simRel_bind ?_ ?_
      · cases hc : currentTok s5 with
        | none => exact simRel_refl _
        | some t =>
          by_cases hb : (t.lexeme == "else") = true
          · simp only [hb, if_true]
            refine simRel_bind (simRel_refl _) ?_
            intro s6
            exact ih _ _
          · simp only [hb, if_false]
            exact simRel_refl _
      · intro s6
        exact simRel_refl _
    | returnStmt =>
      simp only [run]
      refine simRel_bind (simRel_refl _) ?_
      intro s1
      refine simRel_bind ?_ ?_
      · cases hc : currentTok s1 with
        | none => exact simRel_refl _
        | some t =>
          by_cases hb : (!(t.lexeme == ";")) = true
          · simp only [hb, if_true]
            exact ih _ _
          · simp only [hb, if_false]
            exact simRel_refl _
      · intro s2
        exact simRel_refl _
    | condition =>
      simp only [run]
      refine simRel_bind (ih _ _) ?_
      intro s1
      cases hc : currentTok s1 with
      | none => exact simRel_refl _
      | some t =>
        refine simRel_bind (simRel_refl _) ?_
        intro s2
        refine simRel_bind (ih _ _) ?_
        intro s3
        exact simRel_refl _
    | expression =>
      simp only [run]
      refine simRel_bind ?_ ?_
      · cases hc : currentTok st with
        | none => exact simRel_refl _
        | some t =>
          by_cases hb1 : (t.token_type == "integer") = true
          · simp only [hb1, if_true]
            exact simRel_refl _
          · simp only [hb1, if_false]
            by_cases hb2 : (t.token_type == "identifier") = true
            · simp only [hb2, if_true, Bool.true_and, Bool.false_and,
                Bool.false_eq_true, if_false]
              cases hd : is_declared st t.lexeme with
              | true =>
                simp only [hd, Bool.not_true, Bool.false_eq_true, if_false]
                exact simRel_refl _
              | false =>
                simp only [hd, Bool.not_false, if_true]
                exact simRel_declErr (Or.inl ⟨t.lexeme, rfl⟩) _
            · simp only [hb2, if_false]
              exact simRel_refl _
      · intro s1
        exact ih _ _
    | exprOps =>
      simp only [run]
      cases hc : currentTok st with
      | none => exact simRel_refl _
      | some t =>
        by_cases hb : (t.token_type == "operator" &&
            ["+", "-", "*", "/"].contains t.lexeme) = true
        · simp only [hb, if_true]
          refine simRel_bind (simRel_refl _) ?_
          intro s1
          refine simRel_bind (ih _ _) ?_
          intro s2
          refine simRel_bind (simRel_refl _) ?_
          intro s3
          exact ih _ _
        · simp only [hb, if_false]
          exact simRel_refl _
    | term =>
      simp only [run]
      refine simRel_bind (ih _ _) ?_
      intro s1
      exact ih _ _
    | termLoop =>
      simp only [run]
      cases hc : currentTok st with
      | none => exact simRel_refl _
      | some t =>
        by_cases hb : (t.lexeme == "*" || t.lexeme == "/") = true
        · simp only [hb, if_true]
          refine simRel_bind (simRel_refl _) ?_
          intro s1
          refine simRel_bind (ih _ _) ?_
          intro s2
          refine simRel_bind (simRel_refl _) ?_
          intro s3
          exact ih _ _
        · simp only [hb, if_false]
          exact simRel_refl _
    | factor =>
      simp only [run]
      cases hc : currentTok st with
      | none => exact ih _ _
      | some t =>
        by_cases hb : (t.lexeme == "-") = true
        · simp only [hb, if_true]
          refine simRel_bind (simRel_refl _) ?_
          intro s1
          refine simRel_bind (ih _ _) ?_
          intro s2
          exact simRel_refl _
        · simp only [hb, if_false]
          exact ih _ _
    | primary =>
      simp only [run]
      cases hc : currentTok st with
      | none => exact simRel_refl _
      | some t =>
        by_cases hb1 : (t.token_type == "identifier") = true
        · simp only [hb1, if_true]
          cases hn : st.tokens[st.idx + 1]? with
          | some u =>
            by_cases hb2 : (u.token_type == "separator" && u.lexeme == "(") = true
            · simp only [hb2, if_true]
              refine simRel_bind (simRel_refl _) ?_
              intro s1
              refine simRel_bind (simRel_refl _) ?_
              intro s2
              refine simRel_bind (ih _ _) ?_
              intro s3
              exact simRel_refl _
            · simp only [hb2, if_false]
              exact simRel_refl _
          | none => exact simRel_refl _
        · simp only [hb1, if_false]
          by_cases hb2 : (t.token_type == "integer") = true
          · simp only [hb2, if_true]
            exact simRel_refl _
          · simp only [hb2, if_false]
            by_cases hb3 : (t.token_type == "real") = true
            · simp only [hb3, if_true]
              exact simRel_refl _
            · simp only [hb3, if_false]
              by_cases hb4 : (t.token_type == "keyword" &&
                  (t.lexeme == "true" || t.lexeme == "false")) = true
              · simp only [hb4, if_true]
                exact simRel_refl _
              · simp only [hb4, if_false]
                by_cases hb5 : (t.token_type == "separator" && t.lexeme == "(") = true
                · simp only [hb5, if_true]
                  refine simRel_bind (simRel_refl _) ?_
                  intro s1
                  refine simRel_bind (ih _ _) ?_
                  intro s2
                  exact simRel_refl _
                · simp only [hb5, if_false]
                  exact simRel_refl _

/-- C4: on the input `$$ integer x; $$ x = 5; print(x); $$`, from a freshly
reset state, parsing succeeds, the symbol table is exactly `x` at base
address 10000 with type `integer`, and the emitted instruction sequence is
exactly `PUSHI 5; STO x; PUSHM 10000; SOUT`, in that order. -/
theorem c4_scenario_a :
    run true 64 .rat25s (initState (lexer srcA)) = .ok stA := by rfl

/-- C1 counterexample: the claim says Scenario B
(`$$ integer x; $$ y = 5; $$`) fails with UseBeforeDeclaration on `y`; in
fact the run SUCCEEDS — `Parser.assignment` (main.py:245-254) never checks
its left-hand-side identifier — and emits `PUSHI 5; STO y`. -/
theorem c1_counterexample :
    run true 64 .rat25s (initState (lexer srcB)) = .ok stB := by rfl

/-- C1 (amended): for every token stream accepted by the check-free grammar
engine (`chk = false` — the spec's "grammatically valid" programs), the
checked run succeeds iff it raises no declaration-check failure
(DuplicateDeclaration, UseBeforeDeclaration on an identifier read inside an
expression, or the raw symbol-table key error of `scan`); assignment
targets are never checked, so Scenario B parses successfully, emitting
`PUSHI 5; STO y`. -/
theorem c1_decl_iff :
    (∀ (fuel : Nat) (tks : List Token) (g : PState),
      run false fuel .rat25s (initState tks) = .ok g →
      ((∃ r, run true fuel .rat25s (initState tks) = .ok r) ↔
        ¬ ∃ e, IsDeclErr e ∧ run true fuel .rat25s (initState tks) = .error e)) ∧
    run true 64 .rat25s (initState (lexer srcB)) = .ok stB := by
  constructor
  · intro fuel tks g hg
    constructor
    · rintro ⟨r, hr⟩ ⟨e, -, he⟩
      rw [hr] at he
      exact Except.noConfusion he
    · intro hne
      rcases run_sim fuel .rat25s (initState tks) g hg with h | ⟨e, he, h⟩
      · exact ⟨g, h⟩
      · exact absurd ⟨e, he, h⟩ hne
  · rfl

/-- Witness for C1 (amended), instantiated at Scenario B: the check-free
engine accepts it, and the equivalence holds there. -/
theorem c1_decl_iff_witness :
    run false 64 .rat25s (initState (lexer srcB)) = .ok stB ∧
    ((∃ r, run true 64 .rat25s (initState (lexer srcB)) = .ok r) ↔
      ¬ ∃ e, IsDeclErr e ∧
        run true 64 .rat25s (initState (lexer srcB)) = .error e) :=
  ⟨by rfl, c1_decl_iff.1 64 (lexer srcB) stB (by rfl)⟩

/-- C3 counterexample: the claim says that when parsing completes without
error the entire token stream has been consumed; on
`$$ integer x; $$ x = 5; $$ y` the run succeeds having consumed only 10 of
the 11 tokens — the trailing `y` is silently ignored
(`parse_rat25s`, main.py:145-159, returns right after the final `$$`). -/
theorem c3_counterexample :
    run true 64 .rat25s (initState (lexer srcTrail)) = .ok stTrail ∧
    stTrail.idx = 10 ∧ (lexer srcTrail).length = 11 :=
  ⟨by rfl, rfl, by rfl⟩

/-- C3 (amended): when parsing completes without an error, the tokens up to
and including a terminal `$$` have been consumed — the token just before
the final cursor is the separator `$$` and the cursor is in bounds — but
tokens after that terminal `$$` may remain unconsumed; a failing run
reports exactly one error (the single `Except` error of the run). -/
theorem c3_terminal_dollar (fuel : Nat) (tks : List Token) (st' : PState)
    (h : run true fuel .rat25s (initState tks) = .ok st') :
    st'.tokens = tks ∧ 0 < st'.idx ∧ st'.idx ≤ tks.length ∧
    tks[st'.idx - 1]? = some ⟨"separator", "$$"⟩ := by
  cases fuel with
  | zero => exact absurd h (by simp [run])
  | succ fuel =>
    simp only [run] at h
    obtain ⟨s1, h1, h⟩ := bind_ok h
    obtain ⟨s2, h2, h⟩ := bind_ok h
    obtain ⟨s3, h3, h⟩ := bind_ok h
    obtain ⟨s4, h4, h⟩ := bind_ok h
    obtain ⟨s5, h5, h⟩ := bind_ok h
    have e4 : PExt s3 s4 := by
      cases hc : currentTok s3 with
      | none => simp only [hc] at h4; cases h4; exact PExt.refl
      | some t =>
        simp only [hc] at h4
        by_cases hb : (t.token_type == "separator" && t.lexeme == "$$") = true
        · rw [if_pos hb] at h4; exact matchTok_ext h4
        · rw [if_neg hb] at h4; cases h4; exact PExt.refl
    have e5 : PExt (initState tks) s5 :=
      ((((matchTok_ext h1).trans (run_ext _ _ _ _ _ h2)).trans
        (run_ext _ _ _ _ _ h3)).trans e4).trans (run_ext _ _ _ _ _ h5)
    obtain ⟨hst, t, hc, hty, hlx⟩ := matchTok_ok h
    have htok5 : s5.tokens = tks := e5.tokens_eq
    have hlt : s5.idx < s5.tokens.length := currentTok_lt hc
    have ht : t = ⟨"separator", "$$"⟩ := by
      rcases hlx with h' | h'
      · exact absurd h' (by simp)
      · cases t with
        | mk ty lx => simp_all
    subst hst
    refine ⟨htok5, Nat.succ_pos _, ?_, ?_⟩
    · show s5.idx + 1 ≤ tks.length
      rw [← htok5]
      exact hlt
    · show tks[s5.idx + 1 - 1]? = some ⟨"separator", "$$"⟩
      simp only [Nat.add_sub_cancel]
      unfold currentTok at hc
      rw [htok5] at hc
      rw [hc, ht]

/-- Witness for C3 (amended), instantiated on `srcTrail`. -/
theorem c3_terminal_dollar_witness :
    run true 64 .rat25s (initState (lexer srcTrail)) = .ok stTrail ∧
    (stTrail.tokens = lexer srcTrail ∧ 0 < stTrail.idx ∧
      stTrail.idx ≤ (lexer srcTrail).length ∧
      (lexer srcTrail)[stTrail.idx - 1]? = some ⟨"separator", "$$"⟩) :=
  ⟨by rfl, c3_terminal_dollar 64 (lexer srcTrail) stTrail (by rfl)⟩

/-- C7: within one compilation run from the reset state, symbol-table
addresses start at the base value 10000, are assigned in declaration order
as base + position, are strictly increasing and pairwise distinct, and the
counter `Memory_Address` is the base plus the number of declarations
(incremented by exactly one per successful declaration). -/
theorem c7_addresses (chk : Bool) (fuel : Nat) (tks : List Token)
    (st' : PState) (h : run chk fuel .rat25s (initState tks) = .ok st') :
    st'.memAddr = 10000 + st'.symbols.length ∧
    st'.symbols.map (fun e => e.2.1) = List.range' 10000 st'.symbols.length ∧
    (∀ (i j : Nat) (hi : i < st'.symbols.length) (hj : j < st'.symbols.length),
      i < j → (st'.symbols.get ⟨i, hi⟩).2.1 < (st'.symbols.get ⟨j, hj⟩).2.1) ∧
    (st'.symbols.map (fun e => e.2.1)).Nodup := by
  have hext := run_ext fuel chk .rat25s (initState tks) st' h
  have ht : tableOK st' := hext.table ⟨by simp [initState], by simp [initState]⟩
  obtain ⟨hm, ha⟩ := ht
  have key : ∀ (i : Nat) (hi : i < st'.symbols.length),
      (st'.symbols.get ⟨i, hi⟩).2.1 = 10000 + i := by
    intro i hi
    have h1 := congrArg (fun l => l[i]?) ha
    simp only [List.getElem?_map] at h1
    rw [List.getElem?_eq_getElem hi, List.getElem?_range' _ _ hi] at h1
    simpa using h1
  refine ⟨hm, ha, ?_, ?_⟩
  · intro i j hi hj hij
    rw [key i hi, key j hj]
    omega
  · rw [ha]
    exact List.nodup_range' _ _

/-- Witness for C7, instantiated on Scenario A. -/
theorem c7_addresses_witness :
    run true 64 .rat25s (initState (lexer srcA)) = .ok stA ∧
    (stA.memAddr = 10000 + stA.symbols.length ∧
      stA.symbols.map (fun e => e.2.1) = List.range' 10000 stA.symbols.length ∧
      (∀ (i j : Nat) (hi : i < stA.symbols.length) (hj : j < stA.symbols.length),
        i < j → (stA.symbols.get ⟨i, hi⟩).2.1 < (stA.symbols.get ⟨j, hj⟩).2.1) ∧
      (stA.symbols.map (fun e => e.2.1)).Nodup) :=
  ⟨by rfl, c7_addresses true 64 (lexer srcA) stA (by rfl)⟩

/-- Reduction of a successful bind (used to evaluate `run` step by step). -/
theorem ok_bind (a : PState) (f : PState → Except PError PState) :
    (Except.ok a : Except PError PState) >>= f = f a := rfl

/-- A `matchTok` whose current token has the expected type (and lexeme, when
one is demanded) succeeds and advances the cursor. -/
theorem matchTok_hit {st : PState} {ty lx0 : String}
    (hc : currentTok st = some ⟨ty, lx0⟩) (lx : Option String)
    (hlx : lx = none ∨ lx = some lx0) :
    matchTok ty lx st = .ok { st with idx := st.idx + 1 } := by
  unfold matchTok
  rw [hc]
  rcases hlx with rfl | rfl <;> simp

/-- An `emit` below capacity succeeds. -/
theorem emit_hit {st : PState} (i : Instr) (h : st.instrs.length < MAX_INSTR) :
    emit i st = .ok { st with instrs := st.instrs ++ [i] } := by
  unfold emit
  rw [if_pos h]

/-- C10: a `scan` statement whose tokens through the closing `;` are in
place aborts with the raw symbol-table key error (not the semantic
UseBeforeDeclaration) when its identifier is undeclared — after the five
scan tokens are consumed and before either `SIN` or `POPM` is emitted (the
error precedes both emissions in program order, main.py:256-267) — while
for a declared identifier exactly `SIN` then `POPM addr` are emitted. -/
theorem c10_scan (fuel : Nat) (st : PState) (nm : String)
    (h0 : st.tokens[st.idx]? = some ⟨"keyword", "scan"⟩)
    (h1 : st.tokens[st.idx + 1]? = some ⟨"separator", "("⟩)
    (h2 : st.tokens[st.idx + 2]? = some ⟨"identifier", nm⟩)
    (h3 : st.tokens[st.idx + 3]? = some ⟨"separator", ")"⟩)
    (h4 : st.tokens[st.idx + 4]? = some ⟨"separator", ";"⟩) :
    (lookupAddr st nm = none →
      run true (fuel + 1) .scanStmt st = .error (.keyError nm)) ∧
    (∀ a, lookupAddr st nm = some a → st.instrs.length + 2 ≤ MAX_INSTR →
      run true (fuel + 1) .scanStmt st =
        .ok { st with
                idx := st.idx + 5
                instrs := st.instrs ++ [.SIN, .POPM a] }) := by
  have m1 : matchTok "keyword" (some "scan") st =
      .ok { st with idx := st.idx + 1 } :=
    matchTok_hit (by simpa [currentTok] using h0) _ (Or.inr rfl)
  have m2 : matchTok "separator" (some "(") { st with idx := st.idx + 1 } =
      .ok { st with idx := st.idx + 1 + 1 } :=
    matchTok_hit (by simpa [currentTok] using h1) _ (Or.inr rfl)
  have hc2 : currentTok { st with idx := st.idx + 1 + 1 } =
      some ⟨"identifier", nm⟩ := by
    simpa [currentTok] using h2
  have m3 : matchTok "identifier" none { st with idx := st.idx + 1 + 1 } =
      .ok { st with idx := st.idx + 1 + 1 + 1 } :=
    matchTok_hit hc2 _ (Or.inl rfl)
  have m4 : matchTok "separator" (some ")") { st with idx := st.idx + 1 + 1 + 1 } =
      .ok { st with idx := st.idx + 1 + 1 + 1 + 1 } :=
    matchTok_hit (by simpa [currentTok] using h3) _ (Or.inr rfl)
  have m5 : matchTok "separator" (some ";")
      { st with idx := st.idx + 1 + 1 + 1 + 1 } =
      .ok { st with idx := st.idx + 1 + 1 + 1 + 1 + 1 } :=
    matchTok_hit (by simpa [currentTok] using h4) _ (Or.inr rfl)
  have hlk : lookupAddr { st with idx := st.idx + 1 + 1 + 1 + 1 + 1 } nm =
      lookupAddr st nm := rfl
  constructor
  · intro hnone
    simp only [run, m1, ok_bind, m2, ok_bind, hc2, m3, ok_bind, m4, ok_bind,
      m5, ok_bind, hlk, hnone]
    simp
  · intro a ha hcap
    have m6 : emit .SIN { st with idx := st.idx + 1 + 1 + 1 + 1 + 1 } =
        .ok { st with
                idx := st.idx + 1 + 1 + 1 + 1 + 1
                instrs := st.instrs ++ [.SIN] } :=
      emit_hit _ (by simp only [MAX_INSTR] at hcap ⊢; omega)
    have m7 : emit (.POPM a)
        { st with
            idx := st.idx + 1 + 1 + 1 + 1 + 1
            instrs := st.instrs ++ [.SIN] } =
        .ok { st with
                idx := st.idx + 1 + 1 + 1 + 1 + 1
                instrs := (st.instrs ++ [.SIN]) ++ [.POPM a] } :=
      emit_hit _ (by
        simp only [MAX_INSTR, List.length_append, List.length_singleton]
          at hcap ⊢
        omega)
    have hlk2 : lookupAddr
        { st with
            idx := st.idx + 1 + 1 + 1 + 1 + 1
            instrs := st.instrs ++ [.SIN] } nm = lookupAddr st nm := rfl
    simp only [run, m1, ok_bind, m2, ok_bind, hc2, m3, ok_bind, m4, ok_bind,
      m5, ok_bind, hlk, ha]
    simp only [Option.isNone_some, Bool.and_false, Bool.false_eq_true,
      if_false, m6, ok_bind, hlk2, ha, Option.getD_some, m7]
    simp [List.append_assoc]

/-- Witness for C10: undeclared `scan(x);` raises the raw key error;
declared `scan(x);` emits `SIN; POPM 10000`. -/
theorem c10_scan_witness :
    lookupAddr scanStartU "x" = none ∧
    run true 9 .scanStmt scanStartU = .error (.keyError "x") ∧
    lookupAddr scanStart "x" = some 10000 ∧
    run true 9 .scanStmt scanStart =
      .ok { scanStart with
              idx := scanStart.idx + 5
              instrs := scanStart.instrs ++ [.SIN, .POPM 10000] } :=
  ⟨by rfl,
   (c10_scan 8 scanStartU "x" (by rfl) (by rfl) (by rfl) (by rfl) (by rfl)).1
     (by rfl),
   by rfl,
   (c10_scan 8 scanStart "x" (by rfl) (by rfl) (by rfl) (by rfl) (by rfl)).2
     10000 (by rfl) (by decide)⟩

theorem PExt.instrs_decomp {a b : PState} (h : PExt a b) :
    b.instrs = a.instrs ++ b.instrs.drop a.instrs.length := by
  conv_lhs => rw [← List.take_append_drop a.instrs.length b.instrs]
  rw [h.instr_pre]

theorem list_set_len {α : Type} (l1 : List α) (x v : α) (l2 : List α) :
    (l1 ++ x :: l2).set l1.length v = l1 ++ v :: l2 := by
  induction l1 with
  | nil => rfl
  | cons a tl ihl => simpa [List.set] using ihl

theorem while_decomp {chk : Bool} {fuel : Nat} {st st' : PState}
    (h : run chk (fuel + 1) .whileStmt st = .ok st') :
    ∃ (sc sb : PState) (condTail bodyTail : List Instr),
      run chk fuel .condition { st with idx := st.idx + 1 + 1 } = .ok sc ∧
      sc.instrs = st.instrs ++ condTail ∧
      run chk fuel (.stmtList ["\x7d"]) { sc with
          idx := sc.idx + 1 + 1
          instrs := sc.instrs ++ [.LABEL, .JMP0 0] } = .ok sb ∧
      sb.instrs = (sc.instrs ++ [.LABEL, .JMP0 0]) ++ bodyTail ∧
      st'.instrs = st.instrs ++ condTail ++
        [Instr.LABEL,
         Instr.JMP0 (st.instrs.length + condTail.length + bodyTail.length + 4)] ++
        bodyTail ++ [Instr.JMP (st.instrs.length + condTail.length + 1)] ∧
      st.instrs.length + condTail.length + bodyTail.length + 4 =
        st'.instrs.length + 1 := by
  simp only [run] at h
  obtain ⟨s1, h1, h⟩ := bind_ok h
  obtain ⟨s2, h2, h⟩ := bind_ok h
  obtain ⟨s3, h3, h⟩ := bind_ok h
  obtain ⟨s4, h4, h⟩ := bind_ok h
  obtain ⟨s5, h5, h⟩ := bind_ok h
  obtain ⟨s6, h6, h⟩ := bind_ok h
  obtain ⟨s7, h7, h⟩ := bind_ok h
  obtain ⟨s8, h8, h⟩ := bind_ok h
  obtain ⟨s9, h9, h⟩ := bind_ok h
  obtain ⟨s10, h10, h⟩ := bind_ok h
  obtain ⟨e1, -⟩ := matchTok_ok h1
  subst e1
  obtain ⟨e2, -⟩ := matchTok_ok h2
  subst e2
  obtain ⟨e4, -⟩ := matchTok_ok h4
  subst e4
  obtain ⟨e5, -⟩ := emit_ok h5
  subst e5
  obtain ⟨e6, -⟩ := emit_ok h6
  subst e6
  obtain ⟨e7, -⟩ := matchTok_ok h7
  subst e7
  obtain ⟨e9, -⟩ := matchTok_ok h9
  subst e9
  obtain ⟨e10, -⟩ := emit_ok h10
  subst e10
  obtain ⟨est, -⟩ := matchTok_ok h
  subst est
  have pc : PExt { st with idx := st.idx + 1 + 1 } s3 := run_ext _ _ _ _ _ h3
  have hcond : s3.instrs = st.instrs ++ s3.instrs.drop st.instrs.length := by
    have := pc.instrs_decomp
    simpa using this
  have pb := run_ext _ _ _ _ _ h8
  have hbody : s8.instrs = (s3.instrs ++ [Instr.LABEL, Instr.JMP0 0]) ++
      s8.instrs.drop (s3.instrs.length + 2) := by
    have := pb.instrs_decomp
    simp only [List.append_assoc, List.singleton_append, List.length_append,
      List.length_cons, List.length_singleton, List.length_nil] at this ⊢
    exact this
  refine ⟨s3, s8, s3.instrs.drop st.instrs.length,
    s8.instrs.drop (s3.instrs.length + 2), h3, hcond, ?_, ?_, ?_, ?_⟩
  · simp only [List.append_assoc, List.singleton_append] at h8
    exact h8
  · exact hbody
  · dsimp only
    set Ct := s3.instrs.drop st.instrs.length with hCt
    set Bt := s8.instrs.drop (s3.instrs.length + 2) with hBt
    rw [hbody, hcond]
    have hidx : ((st.instrs ++ Ct) ++ [Instr.LABEL]).length + 1 - 1 =
        ((st.instrs ++ Ct) ++ [Instr.LABEL]).length := by omega
    rw [hidx]
    have hlen1 : (st.instrs ++ Ct).length + 1 =
        st.instrs.length + Ct.length + 1 := by simp
    rw [hlen1]
    have hlen2 : ((((st.instrs ++ Ct) ++ [Instr.LABEL, Instr.JMP0 0]) ++ Bt) ++
        [Instr.JMP (st.instrs.length + Ct.length + 1)]).length + 1 =
        st.instrs.length + Ct.length + Bt.length + 4 := by
      simp only [List.length_append, List.length_cons, List.length_nil,
        List.length_singleton]
      omega
    rw [hlen2]
    have hsh : (((st.instrs ++ Ct) ++ [Instr.LABEL, Instr.JMP0 0]) ++ Bt) ++
        [Instr.JMP (st.instrs.length + Ct.length + 1)] =
        ((st.instrs ++ Ct) ++ [Instr.LABEL]) ++
          (Instr.JMP0 0 :: (Bt ++ [Instr.JMP (st.instrs.length + Ct.length + 1)])) := by
      simp
    rw [hsh, list_set_len]
    simp [List.append_assoc]
  · dsimp only
    set Ct := s3.instrs.drop st.instrs.length with hCt
    set Bt := s8.instrs.drop (s3.instrs.length + 2) with hBt
    rw [List.length_set]
    rw [hbody, hcond]
    simp only [List.length_append, List.length_cons, List.length_nil,
      List.length_singleton]
    omega

/-- A successful `condition` (main.py:327-339) appends its two expressions'
instructions followed by exactly one comparison instruction. -/
theorem condition_decomp {chk : Bool} {fuel : Nat} {st st' : PState}
    (h : run chk (fuel + 1) .condition st = .ok st') :
    ∃ (t0 : List Instr) (c : String),
      st'.instrs = st.instrs ++ t0 ++ [.CMP c] := by
  simp only [run] at h
  obtain ⟨s1, h1, h⟩ := bind_ok h
  cases hc : currentTok s1 with
  | none => simp only [hc] at h; exact absurd h (by simp)
  | some t =>
    simp only [hc] at h
    obtain ⟨s2, h2, h⟩ := bind_ok h
    obtain ⟨s3, h3, h⟩ := bind_ok h
    cases hm : cmpMap t.lexeme with
    | none => simp only [hm] at h; exact absurd h (by simp)
    | some c =>
      simp only [hm] at h
      obtain ⟨hst, -⟩ := emit_ok h
      subst hst
      have e3 : PExt st s3 :=
        ((run_ext _ _ _ _ _ h1).trans (matchTok_ext h2)).trans
          (run_ext _ _ _ _ _ h3)
      refine ⟨s3.instrs.drop st.instrs.length, c, ?_⟩
      show s3.instrs ++ [Instr.CMP c] = _
      conv_lhs => rw [e3.instrs_decomp]

/-- C2: every successfully parsed `while` reserves exactly one placeholder
conditional exit jump (the single `JMP0` the construct emits right after
its `LABEL`), patches it to a target strictly greater than the loop's start
label, emits exactly one unconditional backward jump to the start label
after the body, and the patched exit target is the position immediately
after that backward jump (one past the final instruction). -/
theorem c2_while_backpatch (chk : Bool) (fuel : Nat) (st st' : PState)
    (h : run chk (fuel + 1) .whileStmt st = .ok st') :
    ∃ condTail bodyTail : List Instr,
      st'.instrs = st.instrs ++ condTail ++
        [Instr.LABEL,
         Instr.JMP0 (st.instrs.length + condTail.length + bodyTail.length + 4)] ++
        bodyTail ++ [Instr.JMP (st.instrs.length + condTail.length + 1)] ∧
      st.instrs.length + condTail.length + 1 <
        st.instrs.length + condTail.length + bodyTail.length + 4 ∧
      st.instrs.length + condTail.length + bodyTail.length + 4 =
        st'.instrs.length + 1 := by
  obtain ⟨sc, sb, Ct, Bt, -, -, -, -, hmain, hlen⟩ := while_decomp h
  exact ⟨Ct, Bt, hmain, by omega, hlen⟩

/-- Witness for C2, on `while (x < 3) { } endwhile` from a state with `x`
declared. -/
theorem c2_while_backpatch_witness :
    run true 9 .whileStmt wStart = .ok wEnd ∧
    ∃ condTail bodyTail : List Instr,
      wEnd.instrs = wStart.instrs ++ condTail ++
        [Instr.LABEL,
         Instr.JMP0 (wStart.instrs.length + condTail.length + bodyTail.length + 4)] ++
        bodyTail ++ [Instr.JMP (wStart.instrs.length + condTail.length + 1)] ∧
      wStart.instrs.length + condTail.length + 1 <
        wStart.instrs.length + condTail.length + bodyTail.length + 4 ∧
      wStart.instrs.length + condTail.length + bodyTail.length + 4 =
        wEnd.instrs.length + 1 :=
  ⟨by rfl, c2_while_backpatch true 8 wStart wEnd (by rfl)⟩

/-- C9: in a successfully parsed `while`, the condition's instructions
(ending in its comparison instruction) are emitted exactly once, before the
loop-entry `LABEL`; the backward `JMP`'s target — the label position
`|st.instrs| + |condTail| + 1` — therefore lies after all of the
condition's instructions (which occupy positions `|st.instrs| + 1` through
`|st.instrs| + |condTail|`), outside the range spanned by the backward
jump. -/
theorem c9_condition_layout (chk : Bool) (fuel : Nat) (st st' : PState)
    (h : run chk (fuel + 1) .whileStmt st = .ok st') :
    ∃ (sc : PState) (condTail t0 bodyTail : List Instr) (c : String),
      run chk fuel .condition { st with idx := st.idx + 1 + 1 } = .ok sc ∧
      sc.instrs = st.instrs ++ condTail ∧
      condTail = t0 ++ [.CMP c] ∧
      st'.instrs = st.instrs ++ condTail ++
        [Instr.LABEL,
         Instr.JMP0 (st.instrs.length + condTail.length + bodyTail.length + 4)] ++
        bodyTail ++ [Instr.JMP (st.instrs.length + condTail.length + 1)] := by
  obtain ⟨sc, sb, Ct, Bt, hcrun, hcinstr, -, -, hmain, -⟩ := while_decomp h
  cases fuel with
  | zero => exact absurd hcrun (by simp [run])
  | succ g =>
    obtain ⟨t0, c, hcd⟩ := condition_decomp hcrun
    refine ⟨sc, Ct, t0, Bt, c, hcrun, hcinstr, ?_, hmain⟩
    have hcd' : sc.instrs = st.instrs ++ (t0 ++ [Instr.CMP c]) := by
      simpa [List.append_assoc] using hcd
    rw [hcinstr] at hcd'
    exact List.append_cancel_left hcd'

/-- Witness for C9, on `while (x < 3) { } endwhile` from a state with `x`
declared. -/
theorem c9_condition_layout_witness :
    run true 9 .whileStmt wStart = .ok wEnd ∧
    ∃ (sc : PState) (condTail t0 bodyTail : List Instr) (c : String),
      run true 8 .condition { wStart with idx := wStart.idx + 1 + 1 } = .ok sc ∧
      sc.instrs = wStart.instrs ++ condTail ∧
      condTail = t0 ++ [.CMP c] ∧
      wEnd.instrs = wStart.instrs ++ condTail ++
        [Instr.LABEL,
         Instr.JMP0 (wStart.instrs.length + condTail.length + bodyTail.length + 4)] ++
        bodyTail ++ [Instr.JMP (wStart.instrs.length + condTail.length + 1)] :=
  ⟨by rfl, c9_condition_layout true 8 wStart wEnd (by rfl)⟩

/-- C5: a successfully parsed `if` emits exactly the condition's
instructions (ending in its comparison instruction) followed by the branch
statement(s)' own instructions; the construct itself emits no conditional
or unconditional jump around either branch — the final instruction list is
exactly the branch-final state's list. -/
theorem c5_if_no_jumps (chk : Bool) (fuel : Nat) (st st' : PState)
    (h : run chk (fuel + 1) .ifStmt st = .ok st') :
    ∃ (sc sb : PState) (t0 : List Instr) (c : String),
      run chk fuel .condition { st with idx := st.idx + 1 + 1 } = .ok sc ∧
      sc.instrs = st.instrs ++ t0 ++ [.CMP c] ∧
      run chk fuel .stmt { sc with idx := sc.idx + 1 } = .ok sb ∧
      (st'.instrs = sb.instrs ∨
        ∃ sb2, run chk fuel .stmt { sb with idx := sb.idx + 1 } = .ok sb2 ∧
          st'.instrs = sb2.instrs) := by
  simp only [run] at h
  obtain ⟨s1, h1, hA⟩ := bind_ok h
  obtain ⟨s2, h2, hB⟩ := bind_ok hA
  obtain ⟨s3, h3, hC⟩ := bind_ok hB
  obtain ⟨s4, h4, hD⟩ := bind_ok hC
  obtain ⟨s5, h5, hE⟩ := bind_ok hD
  obtain ⟨s6, h6, hF⟩ := bind_ok hE
  obtain ⟨e1, -⟩ := matchTok_ok h1
  subst e1
  obtain ⟨e2, -⟩ := matchTok_ok h2
  subst e2
  obtain ⟨e4, -⟩ := matchTok_ok h4
  subst e4
  obtain ⟨est, -⟩ := matchTok_ok hF
  subst est
  cases fuel with
  | zero => exact absurd h3 (by simp [run])
  | succ g =>
    obtain ⟨t0, c, hcd⟩ := condition_decomp h3
    refine ⟨s3, s5, t0, c, h3, by simpa using hcd, h5, ?_⟩
    cases hc : currentTok s5 with
    | none => simp only [hc] at h6; cases h6; exact Or.inl rfl
    | some t =>
      simp only [hc] at h6
      by_cases hb : (t.lexeme == "else") = true
      · rw [if_pos hb] at h6
        obtain ⟨s7, h7, h6'⟩ := bind_ok h6
        obtain ⟨e7, -⟩ := matchTok_ok h7
        subst e7
        exact Or.inr ⟨s6, h6', rfl⟩
      · rw [if_neg hb] at h6; cases h6; exact Or.inl rfl

/-- Witness for C5, on `if (x < 3) x = 1; endif` from a state with `x`
declared. -/
theorem c5_if_no_jumps_witness :
    run true 9 .ifStmt ifStart = .ok ifEnd ∧
    ∃ (sc sb : PState) (t0 : List Instr) (c : String),
      run true 8 .condition { ifStart with idx := ifStart.idx + 1 + 1 } = .ok sc ∧
      sc.instrs = ifStart.instrs ++ t0 ++ [.CMP c] ∧
      run true 8 .stmt { sc with idx := sc.idx + 1 } = .ok sb ∧
      (ifEnd.instrs = sb.instrs ∨
        ∃ sb2, run true 8 .stmt { sb with idx := sb.idx + 1 } = .ok sb2 ∧
          ifEnd.instrs = sb2.instrs) :=
  ⟨by rfl, c5_if_no_jumps true 8 ifStart ifEnd (by rfl)⟩

/-- After a successful `expression` or operator loop, the current token is
never one of the four arithmetic operators: the loop (main.py:369-382) only
returns once its guard fails. -/
theorem run_noArith (fuel : Nat) : ∀ (chk : Bool) (st st' : PState),
    (run chk fuel .expression st = .ok st' → isArithAt st' = false) ∧
    (run chk fuel .exprOps st = .ok st' → isArithAt st' = false) := by
  induction fuel with
  | zero =>
    intro chk st st'
    exact ⟨fun h => absurd h (by simp [run]), fun h => absurd h (by simp [run])⟩
  | succ fuel ih =>
    intro chk st st'
    constructor
    · intro h
      simp only [run] at h
      obtain ⟨s1, h1, hA⟩ := bind_ok h
      exact (ih chk s1 st').2 hA
    · intro h
      simp only [run] at h
      cases hc : currentTok st with
      | none =>
        simp only [hc] at h
        cases h
        simp [isArithAt, hc]
      | some t =>
        simp only [hc] at h
        cases hb : (t.token_type == "operator" &&
            ["+", "-", "*", "/"].contains t.lexeme) with
        | true =>
          rw [if_pos hb] at h
          obtain ⟨s1, h1, hA⟩ := bind_ok h
          obtain ⟨s2, h2, hB⟩ := bind_ok hA
          obtain ⟨s3, h3, hC⟩ := bind_ok hB
          exact (ih chk s3 st').2 hC
        | false =>
          rw [if_neg (by rw [hb]; exact Bool.false_ne_true)] at h
          cases h
          unfold isArithAt
          rw [hc]
          exact hb

/-- The operator loop is the identity when its guard fails. -/
theorem exprOps_id {chk : Bool} {g : Nat} {st : PState}
    (hna : isArithAt st = false) :
    run chk (g + 1) .exprOps st = .ok st := by
  cases hc : currentTok st with
  | none => simp [run, hc]
  | some t =>
    have hg : (t.token_type == "operator" &&
        ["+", "-", "*", "/"].contains t.lexeme) = false := by
      unfold isArithAt at hna
      rw [hc] at hna
      exact hna
    simp only [run, hc]
    rw [if_neg (by rw [hg]; exact Bool.false_ne_true)]

/-- C6: each pass of `expression`'s operator loop (main.py:369-382) either
leaves the state unchanged (no arithmetic operator at the cursor) or
consumes exactly one of `+ - * /`, recurses into a full `expression` for
the whole right-hand side (no precedence tier, right-to-left association),
and then emits exactly ONE arithmetic instruction after both operand
instruction sequences — after which the loop ends; concretely, for
`a * b + c` the addition instruction `A` is emitted before the
multiplication instruction `M`. -/
theorem c6_operator_codegen :
    (∀ (chk : Bool) (fuel : Nat) (st st' : PState),
      run chk (fuel + 1) .exprOps st = .ok st' →
      (st' = st ∧ isArithAt st = false) ∨
      ∃ (t : Token) (s1 : PState),
        currentTok st = some t ∧ t.token_type = "operator" ∧
        (t.lexeme = "+" ∨ t.lexeme = "-" ∨ t.lexeme = "*" ∨ t.lexeme = "/") ∧
        run chk fuel .expression { st with idx := st.idx + 1 } = .ok s1 ∧
        isArithAt s1 = false ∧
        st' = { s1 with instrs := s1.instrs ++ [arithInstr t.lexeme] }) ∧
    run true 20 .expression exprStart = .ok exprEnd := by
  constructor
  · intro chk fuel st st' h
    simp only [run] at h
    cases hc : currentTok st with
    | none =>
      simp only [hc] at h
      cases h
      exact Or.inl ⟨rfl, by simp [isArithAt, hc]⟩
    | some t =>
      simp only [hc] at h
      cases hb : (t.token_type == "operator" &&
          ["+", "-", "*", "/"].contains t.lexeme) with
      | false =>
        rw [if_neg (by rw [hb]; exact Bool.false_ne_true)] at h
        cases h
        refine Or.inl ⟨rfl, ?_⟩
        unfold isArithAt
        rw [hc]
        exact hb
      | true =>
        rw [if_pos hb] at h
        obtain ⟨s1, h1, hA⟩ := bind_ok h
        obtain ⟨e1, -⟩ := matchTok_ok h1
        subst e1
        obtain ⟨s2, h2, hB⟩ := bind_ok hA
        obtain ⟨s3, h3, hC⟩ := bind_ok hB
        obtain ⟨e3, -⟩ := emit_ok h3
        subst e3
        have hna : isArithAt s2 = false := (run_noArith fuel chk _ s2).1 h2
        have hna2 : isArithAt
            { s2 with instrs := s2.instrs ++ [arithInstr t.lexeme] } = false := by
          unfold isArithAt currentTok at hna ⊢
          simpa using hna
        cases fuel with
        | zero => exact absurd hC (by simp [run])
        | succ g =>
          rw [exprOps_id hna2] at hC
          cases hC
          simp only [Bool.and_eq_true, beq_iff_eq] at hb
          refine Or.inr ⟨t, s2, rfl, hb.1, ?_, h2, hna, rfl⟩
          simpa using hb.2
  · rfl

/-- Witness for C6, on the operator tail `+ 1`. -/
theorem c6_operator_codegen_witness :
    run true 9 .exprOps opStart = .ok opEnd ∧
    ((opEnd = opStart ∧ isArithAt opStart = false) ∨
      ∃ (t : Token) (s1 : PState),
        currentTok opStart = some t ∧ t.token_type = "operator" ∧
        (t.lexeme = "+" ∨ t.lexeme = "-" ∨ t.lexeme = "*" ∨ t.lexeme = "/") ∧
        run true 8 .expression { opStart with idx := opStart.idx + 1 } = .ok s1 ∧
        isArithAt s1 = false ∧
        opEnd = { s1 with instrs := s1.instrs ++ [arithInstr t.lexeme] }) :=
  ⟨by rfl, c6_operator_codegen.1 true 8 opStart opEnd (by rfl)⟩

theorem classify_lexeme (w : String) : (classify w).lexeme = w := by
  unfold classify
  split_ifs <;> rfl

theorem matchOne_cases {c : Char} {rest lex rst : List Char}
    (h : matchOne c rest = some (lex, rst)) :
    c :: rest = lex ++ rst ∧ lex ≠ [] ∧
    ((∀ x ∈ lex, identChar x = true ∨ x = '.') ∨
     (opChar c = true ∧ (lex = [c] ∨ lex = [c, '='])) ∨
     (sepChar c = true ∧ lex = [c])) := by
  simp only [matchOne] at h
  by_cases ha : c.isAlpha = true
  · rw [if_pos ha] at h
    simp only [Option.some.injEq, Prod.mk.injEq] at h
    obtain ⟨hl, hr⟩ := h
    subst hl
    subst hr
    refine ⟨by simp [List.takeWhile_append_dropWhile], by simp, Or.inl ?_⟩
    intro x hx
    rcases List.mem_cons.mp hx with rfl | hx2
    · exact Or.inl (by simp [identChar, ha])
    · exact Or.inl (List.mem_takeWhile_imp hx2)
  · rw [if_neg ha] at h
    by_cases hd : c.isDigit = true
    · rw [if_pos hd] at h
      cases hr1 : rest.dropWhile Char.isDigit with
      | nil =>
        rw [hr1] at h
        simp only [List.head?_nil, List.tail_nil] at h
        rw [if_neg (by simp)] at h
        simp only [Option.some.injEq, Prod.mk.injEq] at h
        obtain ⟨hl, hr⟩ := h
        subst hl
        subst hr
        refine ⟨?_, by simp, Or.inl ?_⟩
        · conv_lhs => rw [← List.takeWhile_append_dropWhile Char.isDigit rest]
          rw [hr1]
          simp
        · intro x hx
          rcases List.mem_cons.mp hx with rfl | hx2
          · exact Or.inl (by simp [identChar, hd])
          · exact Or.inl (by simp [identChar, List.mem_takeWhile_imp hx2])
      | cons a as =>
        rw [hr1] at h
        simp only [List.head?_cons, List.tail_cons] at h
        by_cases hdot : ((some a == some '.') && !(as.takeWhile Char.isDigit).isEmpty) = true
        · rw [if_pos hdot] at h
          simp only [Option.some.injEq, Prod.mk.injEq] at h
          obtain ⟨hl, hr⟩ := h
          subst hl
          subst hr
          simp only [Bool.and_eq_true, beq_iff_eq, Option.some.injEq] at hdot
          obtain ⟨haa, -⟩ := hdot
          subst haa
          refine ⟨?_, by simp, Or.inl ?_⟩
          · conv_lhs => rw [← List.takeWhile_append_dropWhile Char.isDigit rest]
            rw [hr1]
            conv in ('.' :: as) => rw [← List.takeWhile_append_dropWhile Char.isDigit as]
            simp
          · intro x hx
            rcases List.mem_cons.mp hx with rfl | hx2
            · exact Or.inl (by simp [identChar, hd])
            · rcases List.mem_append.mp hx2 with hx3 | hx4
              · exact Or.inl (by simp [identChar, List.mem_takeWhile_imp hx3])
              · rcases List.mem_cons.mp hx4 with rfl | hx5
                · exact Or.inr rfl
                · exact Or.inl (by simp [identChar, List.mem_takeWhile_imp hx5])
        · rw [if_neg hdot] at h
          simp only [Option.some.injEq, Prod.mk.injEq] at h
          obtain ⟨hl, hr⟩ := h
          subst hl
          subst hr
          refine ⟨?_, by simp, Or.inl ?_⟩
          · conv_lhs => rw [← List.takeWhile_append_dropWhile Char.isDigit rest]
            rw [hr1]
            simp
          · intro x hx
            rcases List.mem_cons.mp hx with rfl | hx2
            · exact Or.inl (by simp [identChar, hd])
            · exact Or.inl (by simp [identChar, List.mem_takeWhile_imp hx2])
    · rw [if_neg hd] at h
      by_cases hop : opChar c = true
      · rw [if_pos hop] at h
        by_cases he : (rest.head? == some '=') = true
        · rw [if_pos he] at h
          simp only [Option.some.injEq, Prod.mk.injEq] at h
          obtain ⟨hl, hr⟩ := h
          subst hl
          subst hr
          simp only [beq_iff_eq] at he
          cases rest with
          | nil => exact absurd he (by simp)
          | cons a as =>
            simp only [List.head?_cons, Option.some.injEq] at he
            subst he
            exact ⟨by simp, by simp, Or.inr (Or.inl ⟨hop, Or.inr rfl⟩)⟩
        · rw [if_neg he] at h
          simp only [Option.some.injEq, Prod.mk.injEq] at h
          obtain ⟨hl, hr⟩ := h
          subst hl
          subst hr
          exact ⟨by simp, by simp, Or.inr (Or.inl ⟨hop, Or.inl rfl⟩)⟩
      · rw [if_neg hop] at h
        by_cases hs : sepChar c = true
        · rw [if_pos hs] at h
          simp only [Option.some.injEq, Prod.mk.injEq] at h
          obtain ⟨hl, hr⟩ := h
          subst hl
          subst hr
          exact ⟨by simp, by simp, Or.inr (Or.inr ⟨hs, rfl⟩)⟩
        · rw [if_neg hs] at h
          exact absurd h (by simp)

theorem matchAlt_cases {cs lex rst : List Char}
    (h : matchAlt cs = some (lex, rst)) :
    cs = lex ++ rst ∧ lex ≠ [] ∧
    (lex = ['$', '$'] ∨ lex = ['=', '>'] ∨
     (∀ x ∈ lex, identChar x = true ∨ x = '.') ∨
     (∃ c, opChar c = true ∧ (lex = [c] ∨ lex = [c, '='])) ∨
     (∃ c, sepChar c = true ∧ lex = [c])) := by
  cases cs with
  | nil => exact absurd h (by simp [matchAlt])
  | cons c rest =>
    simp only [matchAlt] at h
    by_cases h1 : (c == '$' && rest.head? == some '$') = true
    · rw [if_pos h1] at h
      simp only [Option.some.injEq, Prod.mk.injEq] at h
      obtain ⟨hl, hr⟩ := h
      subst hl
      subst hr
      simp only [Bool.and_eq_true, beq_iff_eq] at h1
      obtain ⟨hc, hh⟩ := h1
      subst hc
      cases rest with
      | nil => exact absurd hh (by simp)
      | cons a as =>
        simp only [List.head?_cons, Option.some.injEq] at hh
        subst hh
        exact ⟨by simp, by simp, Or.inl rfl⟩
    · rw [if_neg h1] at h
      by_cases h2 : (c == '=' && rest.head? == some '>') = true
      · rw [if_pos h2] at h
        simp only [Option.some.injEq, Prod.mk.injEq] at h
        obtain ⟨hl, hr⟩ := h
        subst hl
        subst hr
        simp only [Bool.and_eq_true, beq_iff_eq] at h2
        obtain ⟨hc, hh⟩ := h2
        subst hc
        cases rest with
        | nil => exact absurd hh (by simp)
        | cons a as =>
          simp only [List.head?_cons, Option.some.injEq] at hh
          subst hh
          exact ⟨by simp, by simp, Or.inr (Or.inl rfl)⟩
      · rw [if_neg h2] at h
        obtain ⟨hsplit, hne, hdisj⟩ := matchOne_cases h
        refine ⟨hsplit, hne, ?_⟩
        rcases hdisj with h3 | h3 | h3
        · exact Or.inr (Or.inr (Or.inl h3))
        · exact Or.inr (Or.inr (Or.inr (Or.inl ⟨c, h3⟩)))
        · exact Or.inr (Or.inr (Or.inr (Or.inr ⟨c, h3⟩)))

theorem matchAlt_sep_hit {c : Char} (cs : List Char)
    (ha : c.isAlpha = false) (hd : c.isDigit = false) (hop : opChar c = false)
    (hsep : sepChar c = true) (h1 : (c == '$') = false)
    (h2 : (c == '=') = false) :
    matchAlt (c :: cs) = some ([c], cs) := by
  simp only [matchAlt]
  rw [if_neg (by rw [h1]; simp), if_neg (by rw [h2]; simp)]
  simp only [matchOne]
  rw [if_neg (by rw [ha]; exact Bool.false_ne_true),
      if_neg (by rw [hd]; exact Bool.false_ne_true),
      if_neg (by rw [hop]; exact Bool.false_ne_true),
      if_pos hsep]

theorem matchAlt_none_sep {c₀ : Char} {tl : List Char}
    (h : matchAlt (c₀ :: tl) = none) : sepChar c₀ = false := by
  simp only [matchAlt] at h
  by_cases h1 : (c₀ == '$' && tl.head? == some '$') = true
  · rw [if_pos h1] at h
    exact absurd h (by simp)
  · rw [if_neg h1] at h
    by_cases h2 : (c₀ == '=' && tl.head? == some '>') = true
    · rw [if_pos h2] at h
      exact absurd h (by simp)
    · rw [if_neg h2] at h
      simp only [matchOne] at h
      by_cases ha : c₀.isAlpha = true
      · rw [if_pos ha] at h
        exact absurd h (by simp)
      · rw [if_neg ha] at h
        by_cases hd : c₀.isDigit = true
        · rw [if_pos hd] at h
          by_cases hdot : ((tl.dropWhile Char.isDigit).head? == some '.' &&
              !((tl.dropWhile Char.isDigit).tail.takeWhile Char.isDigit).isEmpty) = true
          · rw [if_pos hdot] at h
            exact absurd h (by simp)
          · rw [if_neg hdot] at h
            exact absurd h (by simp)
        · rw [if_neg hd] at h
          by_cases hop : opChar c₀ = true
          · rw [if_pos hop] at h
            by_cases he : (tl.head? == some '=') = true
            · rw [if_pos he] at h
              exact absurd h (by simp)
            · rw [if_neg he] at h
              exact absurd h (by simp)
          · rw [if_neg hop] at h
            cases hs : sepChar c₀ with
            | false => rfl
            | true =>
              rw [if_pos hs] at h
              exact absurd h (by simp)

theorem sepChar_spec {c : Char} (h : sepChar c = true) :
    c = '(' ∨ c = ')' ∨ c = ';' ∨ c = ',' ∨ c = '{' ∨ c = '}' := by
  have h2 : c ∈ ['(', ')', ';', ',', '{', '}'] := by
    simpa [sepChar] using h
  simpa using h2

theorem sep_facts {c : Char} (h : sepChar c = true) :
    identChar c = false ∧ c ≠ '.' ∧ opChar c = false ∧
    c ≠ '$' ∧ c ≠ '=' ∧ c ≠ '>' := by
  rcases sepChar_spec h with rfl | rfl | rfl | rfl | rfl | rfl <;> decide

theorem sep_classify {c : Char} (h : sepChar c = true) :
    classify (String.mk [c]) = ⟨"separator", String.mk [c]⟩ := by
  rcases sepChar_spec h with rfl | rfl | rfl | rfl | rfl | rfl <;> rfl

theorem classify_sep_inv {c : Char} {lex : List Char}
    (h : classify (String.mk lex) = ⟨"separator", String.mk [c]⟩) :
    lex = [c] := by
  have h2 := congrArg Token.lexeme h
  rw [classify_lexeme] at h2
  have h3 := congrArg String.toList h2
  simpa using h3

theorem sep_count_step {c : Char} (hc : sepChar c = true) {lex : List Char}
    (hd : lex = ['$', '$'] ∨ lex = ['=', '>'] ∨
      (∀ x ∈ lex, identChar x = true ∨ x = '.') ∨
      (∃ d, opChar d = true ∧ (lex = [d] ∨ lex = [d, '='])) ∨
      (∃ d, sepChar d = true ∧ lex = [d])) :
    (if classify (String.mk lex) = (⟨"separator", String.mk [c]⟩ : Token)
       then 1 else 0) = lex.count c := by
  obtain ⟨hic, hdot, hoc, hdol, heqc, hgt⟩ := sep_facts hc
  by_cases heq : lex = [c]
  · subst heq
    rw [if_pos (sep_classify hc)]
    simp
  · rw [if_neg (fun hEq => heq (classify_sep_inv hEq))]
    symm
    rw [List.count_eq_zero]
    intro hmem
    rcases hd with h | h | h | ⟨d, hop, h | h⟩ | ⟨d, hs, h⟩
    · subst h
      rcases List.mem_cons.mp hmem with rfl | h2
      · exact hdol rfl
      · simp only [List.mem_singleton] at h2
        exact hdol h2
    · subst h
      rcases List.mem_cons.mp hmem with rfl | h2
      · exact heqc rfl
      · simp only [List.mem_singleton] at h2
        exact hgt h2
    · rcases h c hmem with h2 | h2
      · rw [hic] at h2
        exact Bool.false_ne_true h2
      · exact hdot h2
    · subst h
      simp only [List.mem_singleton] at hmem
      subst hmem
      rw [hoc] at hop
      exact Bool.false_ne_true hop
    · subst h
      rcases List.mem_cons.mp hmem with rfl | h2
      · rw [hoc] at hop
        exact Bool.false_ne_true hop
      · simp only [List.mem_singleton] at h2
        exact heqc h2
    · subst h
      simp only [List.mem_singleton] at hmem
      exact heq (by rw [hmem])

theorem lexScan_sep_count {c : Char} (hc : sepChar c = true) :
    ∀ fuel cs, cs.length ≤ fuel →
      (lexScan fuel cs).count ⟨"separator", String.mk [c]⟩ = cs.count c := by
  intro fuel
  induction fuel with
  | zero =>
    intro cs h
    have hnil : cs = [] := List.length_eq_zero.mp (Nat.le_zero.mp h)
    subst hnil
    rfl
  | succ n ih =>
    intro cs h
    cases cs with
    | nil => rfl
    | cons c₀ tl =>
      simp only [lexScan]
      cases hm : matchAlt (c₀ :: tl) with
      | none =>
        simp only [hm]
        have hsep0 : sepChar c₀ = false := matchAlt_none_sep hm
        have hne : c ≠ c₀ := by
          intro hEq
          rw [hEq, hsep0] at hc
          exact Bool.false_ne_true hc
        rw [ih tl (by simpa using Nat.le_of_succ_le_succ h)]
        rw [List.count_cons]
        have hne2 : c₀ ≠ c := Ne.symm hne
        simp [hne2]
      | some p =>
        obtain ⟨lex, rest⟩ := p
        simp only [hm]
        obtain ⟨hsplit, hlne, hd⟩ := matchAlt_cases hm
        have hlen : rest.length ≤ n := by
          have h1 := congrArg List.length hsplit
          simp only [List.length_cons, List.length_append] at h1
          have h2 : 1 ≤ lex.length := by
            cases lex with
            | nil => exact absurd rfl hlne
            | cons a as => simp
          have hb : tl.length + 1 ≤ n + 1 := by simpa using h
          omega
        rw [List.count_cons, ih rest hlen, hsplit, List.count_append]
        have hstep := sep_count_step hc hd
        simp only [beq_iff_eq]
        rw [hstep]
        omega

theorem matchAlt_not_bracket {cs lex rst : List Char} {b : Char}
    (hb : b = '[' ∨ b = ']') (h : matchAlt cs = some (lex, rst)) :
    lex ≠ [b] := by
  obtain ⟨-, -, hd⟩ := matchAlt_cases h
  intro hEq
  subst hEq
  rcases hd with h1 | h1 | h1 | ⟨d, hop, h1 | h1⟩ | ⟨d, hs, h1⟩
  · rcases hb with rfl | rfl <;> exact absurd h1 (by decide)
  · rcases hb with rfl | rfl <;> exact absurd h1 (by decide)
  · rcases h1 b (by simp) with h2 | h2
    · rcases hb with rfl | rfl <;> exact absurd h2 (by decide)
    · rcases hb with rfl | rfl <;> exact absurd h2 (by decide)
  · have hdb : b = d := by simpa using h1
    rw [← hdb] at hop
    rcases hb with rfl | rfl <;> exact absurd hop (by decide)
  · simp at h1
  · have hdb : b = d := by simpa using h1
    rw [← hdb] at hs
    rcases hb with rfl | rfl <;> exact absurd hs (by decide)

theorem lexScan_no_brackets {b : Char} (hb : b = '[' ∨ b = ']') :
    ∀ fuel cs, ∀ t ∈ lexScan fuel cs, t.lexeme ≠ String.mk [b] := by
  intro fuel
  induction fuel with
  | zero =>
    intro cs t ht
    simp [lexScan] at ht
  | succ n ih =>
    intro cs t ht
    cases cs with
    | nil => simp [lexScan] at ht
    | cons c₀ tl =>
      simp only [lexScan] at ht
      cases hm : matchAlt (c₀ :: tl) with
      | none =>
        simp only [hm] at ht
        exact ih tl t ht
      | some p =>
        obtain ⟨lex, rest⟩ := p
        simp only [hm] at ht
        rcases List.mem_cons.mp ht with rfl | ht2
        · rw [classify_lexeme]
          intro hEq
          have hlx : lex = [b] := by
            have h2 := congrArg String.toList hEq
            simpa using h2
          exact matchAlt_not_bracket hb hm hlx
        · exact ih rest t ht2

/-- C8 counterexample: on the source text `[x]` the brackets produce no
tokens at all — the lexer yields only the identifier `x`, and the token
list contains no separator token with lexeme `[` or `]`. -/
theorem c8_counterexample :
    lexer "[x]" = [⟨"identifier", "x"⟩] ∧
    (lexer "[x]").count ⟨"separator", "["⟩ = 0 ∧
    (lexer "[x]").count ⟨"separator", "]"⟩ = 0 :=
  ⟨rfl, rfl, rfl⟩

/-- C8 (amended): every occurrence, outside comments, of one of the
single-character separators actually in `token_pattern` — `(` `)` `;` `,`
`\x7b` `\x7d` — yields exactly one separator token with that lexeme (token
count equals character count in the comment-stripped text); but `[` and
`]`, although listed in the separator set, are matched by no alternative
of `token_pattern`, so no token of the lexer ever has lexeme `[` or `]`. -/
theorem c8_separator_tokens :
    (∀ (c : Char) (s : String), sepChar c = true →
        (lexer s).count ⟨"separator", String.mk [c]⟩ =
          (stripC (s.toList.length + 1) s.toList).count c) ∧
    (∀ (s : String), ∀ t ∈ lexer s,
        t.lexeme ≠ String.mk ['['] ∧ t.lexeme ≠ String.mk [']']) := by
  constructor
  · intro c s hc
    exact lexScan_sep_count hc _ _ (Nat.le_refl _)
  · intro s t ht
    exact ⟨lexScan_no_brackets (Or.inl rfl) _ _ t ht,
           lexScan_no_brackets (Or.inr rfl) _ _ t ht⟩

/-- Witness for C8: on `a;b;` the semicolon count is preserved. -/
theorem c8_separator_tokens_witness :
    sepChar ';' = true ∧
    (lexer "a;b;").count ⟨"separator", String.mk [';']⟩ =
      (stripC ("a;b;".toList.length + 1) "a;b;".toList).count ';' :=
  ⟨by decide, c8_separator_tokens.1 ';' "a;b;" (by decide)⟩
